import Mathlib

/-!
# Verification of the SWMM flow-routing / runoff / output core

A shallow embedding, in Lean 4, of the routing, hot-start, runoff-quality and
binary-output code of this repository (files `flowrout.c`, `hotstart.c`,
`runoff.c`, `subcatch.c`, `output.c`).  C doubles are modelled as exact
rationals (`ℚ`): every claim checked here concerns control flow, clamping and
layout, none depends on floating-point rounding.  External collaborators that
live outside the embedded files (`link_getInflow`, `node_getDepth`,
`xsect_getAofS`, the kinematic-wave solver, ...) are abstracted as function
parameters collected in a `Collab` structure, so each theorem is proved for
every behaviour of those collaborators.
-/

namespace SWMM

/-- Under-relaxation parameter for the storage iteration (`flowrout.c`). -/
def OMEGA : ℚ := 55/100

/-- Max. iterations for storage updating (`flowrout.c`). -/
def MAXITER : ℕ := 10

/-- Storage updating stopping tolerance (`flowrout.c`). -/
def STOPTOL : ℚ := 5/1000

/-- Modelled from the spec: the small positive tolerance `FUDGE` (0.0001 ft)
from `consts.h`, which is not under `src/`; only its value and positivity are
used. -/
def FUDGE : ℚ := 1/10000

/-- Modelled from the spec: the small positive constant `ZERO` (1e-10) from
`consts.h`, which is not under `src/`; used as the threshold for a ponded
depth to count as exceeding depression storage. -/
def depthZERO : ℚ := 1/10000000000

/-- Exponent in the Manning equation (`subcatch.c`: `MEXP = 1.6666667`). -/
def MEXP : ℚ := 16666667/10000000

/-- Modelled from the spec: the negligible-runoff threshold `MIN_RUNOFF`,
defined outside `src/`; only used as an opaque nonnegative threshold. -/
def MIN_RUNOFF : ℚ := 231481/10000000000000

/-- Node types (`enums.h`). -/
inductive NType where
  | JUNCTION | OUTFALL | STORAGE | DIVIDER
deriving DecidableEq, Repr

/-- Link types (`enums.h`). -/
inductive LType where
  | CONDUIT | PUMP | ORIFICE | WEIR | OUTLET1
deriving DecidableEq, Repr

/-- Cross-section types; only the DUMMY / non-DUMMY distinction matters to the
routed code. -/
inductive XType where
  | DUMMY | REAL_XSECT
deriving DecidableEq, Repr

/-- State of one node (the fields of `TNode` read or written by the embedded
routing code). -/
structure NodeSt where
  ntype : NType := NType.JUNCTION
  updated : Bool := false
  oldVolume : ℚ := 0
  newVolume : ℚ := 0
  newDepth : ℚ := 0
  fullVolume : ℚ := 0
  fullDepth : ℚ := 0
  pondedArea : ℚ := 0
  inflow : ℚ := 0
  outflow : ℚ := 0
  losses : ℚ := 0
  oldNetInflow : ℚ := 0
  overflow : ℚ := 0
deriving DecidableEq, Repr

instance : Inhabited NodeSt := ⟨{}⟩

/-- State of one link.  The C code keeps conduit-specific fields in a parallel
`Conduit[]` array reached through `Link[j].subIndex`; here those fields are
stored directly on the link record. -/
structure LinkSt where
  ltype : LType := LType.CONDUIT
  node1 : ℕ := 0
  node2 : ℕ := 0
  xtype : XType := XType.REAL_XSECT
  aFull : ℚ := 0
  yFull : ℚ := 0
  qFull : ℚ := 0
  offset1 : ℚ := 0
  offset2 : ℚ := 0
  newFlow : ℚ := 0
  newDepth : ℚ := 0
  newVolume : ℚ := 0
  -- conduit fields
  barrels : ℚ := 1
  beta : ℚ := 1
  a1 : ℚ := 0
  a2 : ℚ := 0
  q1 : ℚ := 0
  q2 : ℚ := 0
  q1Old : ℚ := 0
  q2Old : ℚ := 0
  capacityLimited : Bool := false
  fullState : ℕ := 0
deriving DecidableEq, Repr

instance : Inhabited LinkSt := ⟨{}⟩

/-- Project state touched by a non-dynamic routing step: the node and link
arrays (modelled as total maps from indices) together with their counts. -/
structure St where
  numNodes : ℕ := 0
  numLinks : ℕ := 0
  node : ℕ → NodeSt := fun _ => default
  link : ℕ → LinkSt := fun _ => default

def getNode (st : St) (i : ℕ) : NodeSt := st.node i

def getLink (st : St) (j : ℕ) : LinkSt := st.link j

def setNode (st : St) (i : ℕ) (n : NodeSt) : St :=
  { st with node := fun k => if k = i then n else st.node k }

def modifyNode (st : St) (i : ℕ) (f : NodeSt → NodeSt) : St :=
  setNode st i (f (getNode st i))

def setLinkMap (st : St) (lk : ℕ → LinkSt) : St := { st with link := lk }

def modifyLink (st : St) (j : ℕ) (f : LinkSt → LinkSt) : St :=
  { st with link := fun k => if k = j then f (st.link j) else st.link k }

/-- External collaborators of `flowrout.c` that are implemented outside the
embedded source files, passed in abstractly. -/
structure Collab where
  /-- `link_getInflow(sp, j)` (link.c): inflow seen by a link, may read any
  project state. -/
  link_getInflow : St → ℕ → ℚ
  /-- `node_getMaxOutflow(sp, n1, q, dt)` (node.c). -/
  node_getMaxOutflow : St → ℕ → ℚ → ℚ → ℚ
  /-- `node_getDepth(sp, i, v)` (node.c): depth from volume. -/
  node_getDepth : ℕ → ℚ → ℚ
  /-- `link_getLossRate(sp, j, q, tStep)` (link.c). -/
  link_getLossRate : St → ℕ → ℚ → ℚ → ℚ
  /-- `xsect_getAofS(sp, xsect, s)` (xsect.c); receives the link carrying the
  cross section. -/
  xsect_getAofS : LinkSt → ℚ → ℚ
  /-- `xsect_getYofA(sp, xsect, a)` (xsect.c). -/
  xsect_getYofA : LinkSt → ℚ → ℚ
  /-- `link_getLength(sp, j)` (link.c). -/
  link_getLength : St → ℕ → ℚ
  /-- `kinwave_execute(sp, j, &qin, &qout, tStep)` (kinwave.c): returns
  (steps, adjusted qin, qout, new link array); it only mutates link/conduit
  state, never nodes. -/
  kinwave_execute : St → ℕ → ℚ → ℚ → ℚ × ℚ × ℚ × (ℕ → LinkSt)
  /-- Global `AllowPonding` option. -/
  AllowPonding : Bool

/-- `getLinkInflow` (flowrout.c): flow into the upstream end of link `j` under
Steady or Kin. Wave routing. -/
def getLinkInflow (C : Collab) (st : St) (j : ℕ) (dt : ℚ) : ℚ :=
  let n1 := (getLink st j).node1
  let q := if (getLink st j).ltype = LType.CONDUIT ∨
              (getLink st j).ltype = LType.PUMP ∨
              (getNode st n1).ntype = NType.STORAGE
           then C.link_getInflow st j else 0
  C.node_getMaxOutflow st n1 q dt

/-- `getStorageOutflow` (flowrout.c): total flow released from storage node
`i`, summing link inflows over the tail of the topo-sorted link array and
stopping at the first link whose upstream node is not `i` (the C `break`). -/
def getStorageOutflow (C : Collab) (st : St) (i : ℕ) (dt : ℚ) :
    List ℕ → ℚ
  | [] => 0
  | m :: rest =>
    if (getLink st m).node1 ≠ i then 0
    else getLinkInflow C st m dt + getStorageOutflow C st i dt rest

/-- One execution of the body of the successive-approximation loop in
`updateStorageState` (flowrout.c, lines 565-597).  Returns the new state, the
under-relaxed depth estimate `d2`, and whether the stopping test fired.  The C
body writes node `i` progressively (`overflow`, then `newVolume`, then
`newDepth` twice); since all its reads of node state precede those writes, the
net effect is the single write performed here, with `newDepth` holding the
under-relaxed value. -/
def storageBody (C : Collab) (i : ℕ) (suffix : List ℕ) (dt vFixed : ℚ)
    (st : St) (d1 : ℚ) : St × ℚ × Bool :=
  let nd := getNode st i
  -- v2 = vFixed - 0.5 * outflow * dt, limited below by 0
  let v2 := max 0 (vFixed - (1/2) * getStorageOutflow C st i dt suffix * dt)
  -- overflow rate: 0 unless volume exceeds full volume; FUDGE-clamped
  let ovf := if v2 > nd.fullVolume then
      (let o := (v2 - max nd.oldVolume nd.fullVolume) / dt
       if o < FUDGE then 0 else o)
    else 0
  -- volume limited to full volume if no ponding
  let v2 := if v2 > nd.fullVolume ∧ (¬ C.AllowPonding ∨ nd.pondedArea = 0)
            then nd.fullVolume else v2
  -- new depth from volume, then under-relaxation
  let d2 := (1 - OMEGA) * d1 + OMEGA * C.node_getDepth i v2
  let stopped : Bool := |d2 - d1| ≤ STOPTOL
  (setNode st i { nd with overflow := ovf, newVolume := v2, newDepth := d2 },
   d2, stopped)

/-- Result of running the storage-update iteration, with ghost data describing
the last executed iteration (used only in theorem statements). -/
structure StorRun where
  st : St
  stopped : Bool
  iters : ℕ
  dPrev : ℚ
  dNew : ℚ

/-- The `while (iter < MAXITER && !stopped)` loop of `updateStorageState`:
`fuel` is `MAXITER - iter`, so the body executes at most `MAXITER - 1` times
and stops early once the under-relaxed depth change is within `STOPTOL`. -/
def storageLoop (C : Collab) (i : ℕ) (suffix : List ℕ) (dt vFixed : ℚ) :
    ℕ → St → ℚ → StorRun
  | 0, st, d1 => ⟨st, false, 0, d1, d1⟩
  | fuel + 1, st, d1 =>
    let b := storageBody C i suffix dt vFixed st d1
    if b.2.2 ∨ fuel = 0 then ⟨b.1, b.2.2, 1, d1, b.2.1⟩
    else
      let r := storageLoop C i suffix dt vFixed fuel b.1 b.2.1
      ⟨r.st, r.stopped, r.iters + 1, r.dPrev, r.dNew⟩

/-- `updateStorageState` (flowrout.c) as a run returning the ghost iteration
data; early returns (non-storage node, already-updated node) report zero
iterations. -/
def updateStorageRun (C : Collab) (i : ℕ) (suffix : List ℕ) (st : St)
    (dt : ℚ) : StorRun :=
  let nd := getNode st i
  if nd.ntype ≠ NType.STORAGE then ⟨st, false, 0, nd.newDepth, nd.newDepth⟩
  else if nd.updated then ⟨st, false, 0, nd.newDepth, nd.newDepth⟩
  else
    let vFixed := nd.oldVolume +
      (1/2) * (nd.oldNetInflow + nd.inflow - nd.outflow) * dt
    let d1 := nd.newDepth
    let r := storageLoop C i suffix dt vFixed (MAXITER - 1) st d1
    ⟨modifyNode r.st i (fun n => { n with updated := true }),
      r.stopped, r.iters, r.dPrev, r.dNew⟩

/-- `updateStorageState` (flowrout.c): state effect only. -/
def updateStorageState (C : Collab) (i : ℕ) (suffix : List ℕ) (st : St)
    (dt : ℚ) : St :=
  (updateStorageRun C i suffix st dt).st

/-- `setNewNodeState` (flowrout.c): closes out node `j` after a Steady-Flow or
Kinematic-Wave step.  Terminal storage nodes get the iterative updater with an
empty link tail (`j = Nobjects[LINK]`, `links = NULL`). -/
def setNewNodeState (C : Collab) (st : St) (j : ℕ) (dt : ℚ) : St :=
  let nd := getNode st j
  if nd.ntype = NType.STORAGE then
    if nd.updated = false then updateStorageState C j [] st dt else st
  else
    -- mid-point integration of stored volume, zeroed below FUDGE
    let newNetInflow := nd.inflow - nd.outflow - nd.losses
    let v := nd.oldVolume + (1/2) * (nd.oldNetInflow + newNetInflow) * dt
    let v := if v < FUDGE then 0 else v
    let canPond := C.AllowPonding ∧ nd.pondedArea > 0
    -- overflow lost from system (0 below full volume; FUDGE-clamped)
    let ovf := if v > nd.fullVolume then
        (let o := (v - max nd.oldVolume nd.fullVolume) / dt
         if o < FUDGE then 0 else o)
      else 0
    -- volume capped at full volume when ponding cannot occur
    let v := if v > nd.fullVolume ∧ ¬ canPond then nd.fullVolume else v
    let d := C.node_getDepth j v
    setNode st j { nd with newVolume := v, overflow := ovf, newDepth := d }

/-- `updateNodeDepth` (flowrout.c): raise a node's depth to `y` if higher,
capped at `fullDepth`. -/
def updateNodeDepth (st : St) (i : ℕ) (y : ℚ) : St :=
  let nd := getNode st i
  if nd.ntype = NType.STORAGE then st
  else
    let y := if nd.ntype ≠ NType.OUTFALL ∧ nd.overflow > 0 then nd.fullDepth
             else y
    if nd.newDepth < y then
      let d := if nd.fullDepth > 0 ∧ y > nd.fullDepth then nd.fullDepth else y
      setNode st i { nd with newDepth := d }
    else st

/-- `setNewLinkState` (flowrout.c): updates a link's depth/volume from its end
areas and pushes end-node depths upward. -/
def setNewLinkState (C : Collab) (st : St) (j : ℕ) : St :=
  let st := modifyLink st j (fun l => { l with newDepth := 0, newVolume := 0 })
  let lk := getLink st j
  if lk.ltype = LType.CONDUIT then
    let a := (1/2) * (lk.a1 + lk.a2)
    let y1 := C.xsect_getYofA lk lk.a1
    let y2 := C.xsect_getYofA lk lk.a2
    let st := modifyLink st j (fun l =>
      { l with newVolume := a * C.link_getLength st j * lk.barrels,
               newDepth := (1/2) * (y1 + y2) })
    let st := updateNodeDepth st lk.node1 (y1 + lk.offset1)
    let st := updateNodeDepth st lk.node2 (y2 + lk.offset2)
    if lk.a1 ≥ lk.aFull then
      modifyLink st j (fun l => { l with capacityLimited := true, fullState := 3 })
    else
      modifyLink st j (fun l => { l with capacityLimited := false, fullState := 0 })
  else st

/-- `steadyflow_execute` (flowrout.c): steady-flow routing through link `j`.
Returns (steps, adjusted qin, qout, new link array). -/
def steadyflow_execute (C : Collab) (st : St) (j : ℕ) (qin : ℚ)
    (tStep : ℚ) : ℚ × ℚ × ℚ × (ℕ → LinkSt) :=
  let lk := getLink st j
  if lk.ltype = LType.CONDUIT then
    let q := qin / lk.barrels
    if lk.xtype = XType.DUMMY then
      let lk' := { lk with a1 := 0, a2 := 0, q1Old := lk.q1, q2Old := lk.q2,
                           q1 := q, q2 := q }
      (1, qin, q * lk.barrels, (modifyLink st j (fun _ => lk')).link)
    else
      let q := q - C.link_getLossRate st j q tStep
      let q := if q < 0 then 0 else q
      if q > lk.qFull then
        let q := lk.qFull
        let lk' := { lk with a1 := lk.aFull, a2 := lk.aFull,
                             q1Old := lk.q1, q2Old := lk.q2, q1 := q, q2 := q }
        (1, q * lk.barrels, q * lk.barrels,
          (modifyLink st j (fun _ => lk')).link)
      else
        let a1 := C.xsect_getAofS lk (q / lk.beta)
        let lk' := { lk with a1 := a1, a2 := a1,
                             q1Old := lk.q1, q2Old := lk.q2, q1 := q, q2 := q }
        (1, qin, q * lk.barrels, (modifyLink st j (fun _ => lk')).link)
  else (1, qin, qin, st.link)

/-- The body of the per-link loop of `flowrout_execute` (flowrout.c, lines
168-187) for the link `j` at the head of the remaining topo-sorted tail
`suffix = j :: rest`: update an upstream storage node, fetch the link inflow,
route it through the selected solver, record the new flow and accumulate the
end-node flows.  Returns the new state and the solver's step count. -/
def routeLinkStep (C : Collab) (useSF : Bool) (tStep : ℚ) (st : St)
    (suffix : List ℕ) (j : ℕ) : St × ℚ :=
  let n1 := (getLink st j).node1
  let st := if (getNode st n1).ntype = NType.STORAGE
            then updateStorageState C n1 suffix st tStep else st
  let qin := getLinkInflow C st j tStep
  let r := if useSF then steadyflow_execute C st j qin tStep
           else C.kinwave_execute st j qin tStep
  let st := setLinkMap st r.2.2.2
  let st := modifyLink st j (fun l => { l with newFlow := r.2.2.1 })
  let st := modifyNode st ((getLink st j).node1)
      (fun n => { n with outflow := n.outflow + r.2.1 })
  let st := modifyNode st ((getLink st j).node2)
      (fun n => { n with inflow := n.inflow + r.2.2.1 })
  (st, r.1)

/-- The per-link loop of `flowrout_execute` (flowrout.c, lines 168-187),
processed in topo-sorted order; `useSF` selects the Steady-Flow solver,
otherwise the (abstract) kinematic-wave solver is used.  Returns the state and
the accumulated step count. -/
def routeLinks (C : Collab) (useSF : Bool) (tStep : ℚ) :
    St → List ℕ → St × ℚ
  | st, [] => (st, 0)
  | st, j :: rest =>
    let s := routeLinkStep C useSF tStep st (j :: rest) j
    let rec2 := routeLinks C useSF tStep s.1 rest
    (rec2.1, s.2 + rec2.2)

/-- The preamble of `flowrout_execute` (lines 149-158): reset `updated` and
`overflow`, pre-charging overflow on over-full non-storage nodes.  Each node
is written independently, so the C loop is modelled pointwise. -/
def stepPre (st : St) (tStep : ℚ) : St :=
  { st with node := fun j =>
      if j < st.numNodes then
        let n := st.node j
        let n := { n with updated := false, overflow := 0 }
        if n.ntype ≠ NType.STORAGE ∧ n.newVolume > n.fullVolume then
          { n with overflow := (n.newVolume - n.fullVolume) / tStep }
        else n
      else st.node j }

/-- `flowrout_execute` (flowrout.c) for the non-dynamic routing models
(Steady Flow when `useSF`, else Kinematic Wave); the dynamic-wave branch
delegates to `dynwave_execute` and is outside this development.  Returns the
final state and the average step count (the C truncation of that average to
`int` is immaterial here). -/
def flowrout_execute (C : Collab) (useSF : Bool) (links : List ℕ) (st : St)
    (tStep : ℚ) : St × ℚ :=
  let st1 := stepPre st tStep
  let r := routeLinks C useSF tStep st1 links
  let steps := if st.numLinks > 0 then r.2 / st.numLinks else r.2
  let st3 := (List.range r.1.numNodes).foldl
      (fun s j => setNewNodeState C s j tStep) r.1
  let st4 := (List.range st3.numLinks).foldl
      (fun s j => setNewLinkState C s j) st3
  (st4, steps)

/-! ## Basic state lemmas -/

@[simp] theorem getNode_setNode_self (st : St) (i : ℕ) (n : NodeSt) :
    getNode (setNode st i n) i = n := by
  simp [getNode, setNode]

theorem getNode_setNode_ne (st : St) (i : ℕ) (n : NodeSt) {k : ℕ}
    (h : k ≠ i) : getNode (setNode st i n) k = getNode st k := by
  simp [getNode, setNode, h]

@[simp] theorem getNode_modifyNode_self (st : St) (i : ℕ) (f : NodeSt → NodeSt) :
    getNode (modifyNode st i f) i = f (getNode st i) := by
  simp [modifyNode]

theorem getNode_modifyNode_ne (st : St) (i : ℕ) (f : NodeSt → NodeSt) {k : ℕ}
    (h : k ≠ i) : getNode (modifyNode st i f) k = getNode st k := by
  simp [modifyNode, getNode_setNode_ne _ _ _ h]

@[simp] theorem getNode_setLinkMap (st : St) (lk : ℕ → LinkSt) (k : ℕ) :
    getNode (setLinkMap st lk) k = getNode st k := rfl

@[simp] theorem getNode_modifyLink (st : St) (j : ℕ) (f : LinkSt → LinkSt)
    (k : ℕ) : getNode (modifyLink st j f) k = getNode st k := rfl

@[simp] theorem numNodes_setNode (st : St) (i : ℕ) (n : NodeSt) :
    (setNode st i n).numNodes = st.numNodes := rfl

@[simp] theorem numNodes_modifyNode (st : St) (i : ℕ) (f : NodeSt → NodeSt) :
    (modifyNode st i f).numNodes = st.numNodes := rfl

@[simp] theorem numNodes_setLinkMap (st : St) (lk : ℕ → LinkSt) :
    (setLinkMap st lk).numNodes = st.numNodes := rfl

@[simp] theorem numNodes_modifyLink (st : St) (j : ℕ) (f : LinkSt → LinkSt) :
    (modifyLink st j f).numNodes = st.numNodes := rfl

@[simp] theorem numLinks_setNode (st : St) (i : ℕ) (n : NodeSt) :
    (setNode st i n).numLinks = st.numLinks := rfl

@[simp] theorem numLinks_modifyNode (st : St) (i : ℕ) (f : NodeSt → NodeSt) :
    (modifyNode st i f).numLinks = st.numLinks := rfl

@[simp] theorem numLinks_setLinkMap (st : St) (lk : ℕ → LinkSt) :
    (setLinkMap st lk).numLinks = st.numLinks := rfl

@[simp] theorem numLinks_modifyLink (st : St) (j : ℕ) (f : LinkSt → LinkSt) :
    (modifyLink st j f).numLinks = st.numLinks := rfl

/-! ## Storage-iteration lemmas -/

/-- FUDGE is positive. -/
theorem FUDGE_pos : (0:ℚ) < FUDGE := by norm_num [FUDGE]

theorem storageBody_node_ne (C : Collab) (i : ℕ) (suffix : List ℕ)
    (dt vFixed : ℚ) (st : St) (d1 : ℚ) {k : ℕ} (h : k ≠ i) :
    getNode (storageBody C i suffix dt vFixed st d1).1 k = getNode st k := by
  simp only [storageBody]
  exact getNode_setNode_ne _ _ _ h

/-- The storage body does not touch the fields of node `i` other than
`overflow`, `newVolume` and `newDepth`. -/
theorem storageBody_self_same (C : Collab) (i : ℕ) (suffix : List ℕ)
    (dt vFixed : ℚ) (st : St) (d1 : ℚ) :
    (getNode (storageBody C i suffix dt vFixed st d1).1 i).ntype =
        (getNode st i).ntype ∧
    (getNode (storageBody C i suffix dt vFixed st d1).1 i).updated =
        (getNode st i).updated ∧
    (getNode (storageBody C i suffix dt vFixed st d1).1 i).fullVolume =
        (getNode st i).fullVolume := by
  simp [storageBody]

/-- After one storage-body execution node `i` has nonnegative overflow and
volume, provided its full volume is nonnegative. -/
theorem storageBody_QOk (C : Collab) (i : ℕ) (suffix : List ℕ)
    (dt vFixed : ℚ) (st : St) (d1 : ℚ)
    (hfv : 0 ≤ (getNode st i).fullVolume) :
    0 ≤ (getNode (storageBody C i suffix dt vFixed st d1).1 i).overflow ∧
    0 ≤ (getNode (storageBody C i suffix dt vFixed st d1).1 i).newVolume := by
  simp only [storageBody, getNode_setNode_self]
  constructor
  · split_ifs with h1 h2
    · exact le_refl 0
    · linarith [FUDGE_pos, not_lt.mp h2]
    · exact le_refl 0
  · split_ifs with h1
    · exact hfv
    · exact le_max_left 0 _

/-- The storage body keeps `newDepth` equal to the returned depth estimate. -/
theorem storageBody_newDepth (C : Collab) (i : ℕ) (suffix : List ℕ)
    (dt vFixed : ℚ) (st : St) (d1 : ℚ) :
    (getNode (storageBody C i suffix dt vFixed st d1).1 i).newDepth =
      (storageBody C i suffix dt vFixed st d1).2.1 := by
  simp [storageBody]

/-- The stopping flag returned by a body execution is the STOPTOL test on the
depth change. -/
theorem storageBody_stopped (C : Collab) (i : ℕ) (suffix : List ℕ)
    (dt vFixed : ℚ) (st : St) (d1 : ℚ) :
    (storageBody C i suffix dt vFixed st d1).2.2 = true ↔
      |(storageBody C i suffix dt vFixed st d1).2.1 - d1| ≤ STOPTOL := by
  simp [storageBody]

theorem storageLoop_node_ne (C : Collab) (i : ℕ) (suffix : List ℕ)
    (dt vFixed : ℚ) :
    ∀ (fuel : ℕ) (st : St) (d1 : ℚ) {k : ℕ}, k ≠ i →
      getNode (storageLoop C i suffix dt vFixed fuel st d1).st k =
        getNode st k := by
  intro fuel
  induction fuel with
  | zero => intro st d1 k hk; rfl
  | succ fuel ih =>
    intro st d1 k hk
    simp only [storageLoop]
    split_ifs with h
    · exact storageBody_node_ne C i suffix dt vFixed st d1 hk
    · rw [ih _ _ hk]
      exact storageBody_node_ne C i suffix dt vFixed st d1 hk

theorem storageLoop_self_same (C : Collab) (i : ℕ) (suffix : List ℕ)
    (dt vFixed : ℚ) :
    ∀ (fuel : ℕ) (st : St) (d1 : ℚ),
      (getNode (storageLoop C i suffix dt vFixed fuel st d1).st i).ntype =
          (getNode st i).ntype ∧
      (getNode (storageLoop C i suffix dt vFixed fuel st d1).st i).updated =
          (getNode st i).updated ∧
      (getNode (storageLoop C i suffix dt vFixed fuel st d1).st i).fullVolume =
          (getNode st i).fullVolume := by
  intro fuel
  induction fuel with
  | zero => intro st d1; exact ⟨rfl, rfl, rfl⟩
  | succ fuel ih =>
    intro st d1
    simp only [storageLoop]
    split_ifs with h
    · exact storageBody_self_same C i suffix dt vFixed st d1
    · obtain ⟨h1, h2, h3⟩ := ih (storageBody C i suffix dt vFixed st d1).1
        (storageBody C i suffix dt vFixed st d1).2.1
      obtain ⟨g1, g2, g3⟩ := storageBody_self_same C i suffix dt vFixed st d1
      exact ⟨h1.trans g1, h2.trans g2, h3.trans g3⟩

theorem storageLoop_QOk (C : Collab) (i : ℕ) (suffix : List ℕ)
    (dt vFixed : ℚ) :
    ∀ (fuel : ℕ) (st : St) (d1 : ℚ), 1 ≤ fuel →
      0 ≤ (getNode st i).fullVolume →
      0 ≤ (getNode (storageLoop C i suffix dt vFixed fuel st d1).st i).overflow ∧
      0 ≤ (getNode (storageLoop C i suffix dt vFixed fuel st d1).st i).newVolume := by
  intro fuel
  induction fuel with
  | zero => intro st d1 h; omega
  | succ fuel ih =>
    intro st d1 _ hfv
    simp only [storageLoop]
    split_ifs with h
    · exact storageBody_QOk C i suffix dt vFixed st d1 hfv
    · have hfu : fuel ≠ 0 := by
        intro h0; exact h (Or.inr h0)
      have hfv' : 0 ≤ (getNode (storageBody C i suffix dt vFixed st d1).1 i).fullVolume := by
        rw [(storageBody_self_same C i suffix dt vFixed st d1).2.2]; exact hfv
      exact ih _ _ (Nat.one_le_iff_ne_zero.mpr hfu) hfv'

theorem storageLoop_newDepth (C : Collab) (i : ℕ) (suffix : List ℕ)
    (dt vFixed : ℚ) :
    ∀ (fuel : ℕ) (st : St) (d1 : ℚ), 1 ≤ fuel →
      (getNode (storageLoop C i suffix dt vFixed fuel st d1).st i).newDepth =
        (storageLoop C i suffix dt vFixed fuel st d1).dNew := by
  intro fuel
  induction fuel with
  | zero => intro st d1 h; omega
  | succ fuel ih =>
    intro st d1 _
    simp only [storageLoop]
    split_ifs with h
    · exact storageBody_newDepth C i suffix dt vFixed st d1
    · have hfu : fuel ≠ 0 := fun h0 => h (Or.inr h0)
      exact ih _ _ (Nat.one_le_iff_ne_zero.mpr hfu)

theorem storageLoop_iters_le (C : Collab) (i : ℕ) (suffix : List ℕ)
    (dt vFixed : ℚ) :
    ∀ (fuel : ℕ) (st : St) (d1 : ℚ),
      (storageLoop C i suffix dt vFixed fuel st d1).iters ≤ fuel := by
  intro fuel
  induction fuel with
  | zero => intro st d1; exact le_refl 0
  | succ fuel ih =>
    intro st d1
    simp only [storageLoop]
    split_ifs with h
    · dsimp only; omega
    · have := ih (storageBody C i suffix dt vFixed st d1).1
        (storageBody C i suffix dt vFixed st d1).2.1
      dsimp only
      omega

theorem storageLoop_not_stopped (C : Collab) (i : ℕ) (suffix : List ℕ)
    (dt vFixed : ℚ) :
    ∀ (fuel : ℕ) (st : St) (d1 : ℚ),
      (storageLoop C i suffix dt vFixed fuel st d1).stopped = false →
      (storageLoop C i suffix dt vFixed fuel st d1).iters = fuel := by
  intro fuel
  induction fuel with
  | zero => intro st d1 _; rfl
  | succ fuel ih =>
    intro st d1 hst
    simp only [storageLoop] at hst ⊢
    split_ifs at hst ⊢ with h
    · dsimp only at hst ⊢
      rcases h with hb | h0
      · rw [hst] at hb; exact absurd hb (by simp)
      · omega
    · have hfu : fuel ≠ 0 := fun h0 => h (Or.inr h0)
      dsimp only at hst ⊢
      have := ih (storageBody C i suffix dt vFixed st d1).1
        (storageBody C i suffix dt vFixed st d1).2.1 hst
      omega

theorem storageLoop_stopped_tol (C : Collab) (i : ℕ) (suffix : List ℕ)
    (dt vFixed : ℚ) :
    ∀ (fuel : ℕ) (st : St) (d1 : ℚ),
      (storageLoop C i suffix dt vFixed fuel st d1).stopped = true →
      |(storageLoop C i suffix dt vFixed fuel st d1).dNew -
        (storageLoop C i suffix dt vFixed fuel st d1).dPrev| ≤ STOPTOL := by
  intro fuel
  induction fuel with
  | zero => intro st d1 h; exact absurd h (by simp [storageLoop])
  | succ fuel ih =>
    intro st d1 hst
    simp only [storageLoop] at hst ⊢
    split_ifs at hst ⊢ with h
    · exact (storageBody_stopped C i suffix dt vFixed st d1).mp hst
    · exact ih _ _ hst

theorem storageLoop_numNodes (C : Collab) (i : ℕ) (suffix : List ℕ)
    (dt vFixed : ℚ) :
    ∀ (fuel : ℕ) (st : St) (d1 : ℚ),
      (storageLoop C i suffix dt vFixed fuel st d1).st.numNodes = st.numNodes ∧
      (storageLoop C i suffix dt vFixed fuel st d1).st.numLinks = st.numLinks ∧
      (storageLoop C i suffix dt vFixed fuel st d1).st.link = st.link := by
  intro fuel
  induction fuel with
  | zero => intro st d1; exact ⟨rfl, rfl, rfl⟩
  | succ fuel ih =>
    intro st d1
    simp only [storageLoop]
    split_ifs with h
    · simp [storageBody, setNode]
    · obtain ⟨h1, h2, h3⟩ := ih (storageBody C i suffix dt vFixed st d1).1
        (storageBody C i suffix dt vFixed st d1).2.1
      refine ⟨h1.trans ?_, h2.trans ?_, h3.trans ?_⟩ <;> simp [storageBody, setNode]

/-! ## `updateStorageState` lemmas -/

/-- Nonnegative overflow and stored volume. -/
def QOk (n : NodeSt) : Prop := 0 ≤ n.overflow ∧ 0 ≤ n.newVolume

theorem updateStorage_node_ne (C : Collab) (i : ℕ) (suffix : List ℕ)
    (st : St) (dt : ℚ) {k : ℕ} (h : k ≠ i) :
    getNode (updateStorageState C i suffix st dt) k = getNode st k := by
  simp only [updateStorageState, updateStorageRun]
  split_ifs with h1 h2
  · rfl
  · rfl
  · rw [getNode_modifyNode_ne _ _ _ h]
    exact storageLoop_node_ne C i suffix dt _ _ _ _ h

/-- `updateStorageState` either leaves the state unchanged (non-storage node
or node already updated) or runs the iteration on a not-yet-updated storage
node, marking it updated and leaving nonnegative overflow and volume. -/
theorem updateStorage_cases (C : Collab) (i : ℕ) (suffix : List ℕ)
    (st : St) (dt : ℚ) :
    (((getNode st i).ntype ≠ NType.STORAGE ∨ (getNode st i).updated = true) ∧
      updateStorageState C i suffix st dt = st) ∨
    ((getNode st i).ntype = NType.STORAGE ∧ (getNode st i).updated = false ∧
      (getNode (updateStorageState C i suffix st dt) i).updated = true ∧
      (getNode (updateStorageState C i suffix st dt) i).ntype =
        NType.STORAGE ∧
      (0 ≤ (getNode st i).fullVolume →
        QOk (getNode (updateStorageState C i suffix st dt) i))) := by
  simp only [updateStorageState, updateStorageRun]
  split_ifs with h1 h2
  · exact Or.inl ⟨Or.inl h1, rfl⟩
  · exact Or.inl ⟨Or.inr h2, rfl⟩
  · refine Or.inr ⟨not_not.mp h1, Bool.not_eq_true _ ▸ (by simpa using h2), ?_, ?_, ?_⟩
    · simp
    · simp only [getNode_modifyNode_self]
      have := (storageLoop_self_same C i suffix dt
        ((getNode st i).oldVolume +
          1/2 * ((getNode st i).oldNetInflow + (getNode st i).inflow -
            (getNode st i).outflow) * dt) (MAXITER - 1) st
        (getNode st i).newDepth).1
      rw [this]
      exact not_not.mp h1
    · intro hfv
      have hq := storageLoop_QOk C i suffix dt
        ((getNode st i).oldVolume +
          1/2 * ((getNode st i).oldNetInflow + (getNode st i).inflow -
            (getNode st i).outflow) * dt) (MAXITER - 1) st
        (getNode st i).newDepth (by norm_num [MAXITER]) hfv
      simpa [QOk] using hq

theorem updateStorage_fullVolume (C : Collab) (i : ℕ) (suffix : List ℕ)
    (st : St) (dt : ℚ) (k : ℕ) :
    (getNode (updateStorageState C i suffix st dt) k).fullVolume =
      (getNode st k).fullVolume := by
  by_cases hk : k = i
  · subst hk
    simp only [updateStorageState, updateStorageRun]
    split_ifs with h1 h2
    · rfl
    · rfl
    · simp only [getNode_modifyNode_self]
      exact (storageLoop_self_same C k suffix dt _ (MAXITER - 1) st _).2.2
  · rw [updateStorage_node_ne C i suffix st dt hk]

theorem updateStorage_ntype (C : Collab) (i : ℕ) (suffix : List ℕ)
    (st : St) (dt : ℚ) (k : ℕ) :
    (getNode (updateStorageState C i suffix st dt) k).ntype =
      (getNode st k).ntype := by
  by_cases hk : k = i
  · subst hk
    simp only [updateStorageState, updateStorageRun]
    split_ifs with h1 h2
    · rfl
    · rfl
    · simp only [getNode_modifyNode_self]
      exact (storageLoop_self_same C k suffix dt _ (MAXITER - 1) st _).1
  · rw [updateStorage_node_ne C i suffix st dt hk]

/-- `updateStorageState` can only switch `updated` from false to true, and
only on a storage node. -/
theorem updateStorage_updated (C : Collab) (i : ℕ) (suffix : List ℕ)
    (st : St) (dt : ℚ) (k : ℕ) :
    (getNode (updateStorageState C i suffix st dt) k).updated =
        (getNode st k).updated ∨
    (k = i ∧ (getNode st i).ntype = NType.STORAGE ∧
      (getNode (updateStorageState C i suffix st dt) k).updated = true) := by
  by_cases hk : k = i
  · subst hk
    rcases updateStorage_cases C k suffix st dt with ⟨_, heq⟩ | ⟨hS, _, hU, _, _⟩
    · exact Or.inl (by rw [heq])
    · exact Or.inr ⟨rfl, hS, hU⟩
  · exact Or.inl (by rw [updateStorage_node_ne C i suffix st dt hk])

theorem updateStorage_numNodes (C : Collab) (i : ℕ) (suffix : List ℕ)
    (st : St) (dt : ℚ) :
    (updateStorageState C i suffix st dt).numNodes = st.numNodes ∧
    (updateStorageState C i suffix st dt).numLinks = st.numLinks ∧
    (updateStorageState C i suffix st dt).link = st.link := by
  simp only [updateStorageState, updateStorageRun]
  split_ifs with h1 h2
  · exact ⟨rfl, rfl, rfl⟩
  · exact ⟨rfl, rfl, rfl⟩
  · obtain ⟨g1, g2, g3⟩ := storageLoop_numNodes C i suffix dt
      ((getNode st i).oldVolume +
        1/2 * ((getNode st i).oldNetInflow + (getNode st i).inflow -
          (getNode st i).outflow) * dt) (MAXITER - 1) st (getNode st i).newDepth
    exact ⟨g1, g2, g3⟩

/-! ## `setNewNodeState` lemmas -/

theorem setNewNodeState_node_ne (C : Collab) (st : St) (j : ℕ) (dt : ℚ)
    {k : ℕ} (h : k ≠ j) :
    getNode (setNewNodeState C st j dt) k = getNode st k := by
  simp only [setNewNodeState]
  split_ifs with h1 h2
  · exact updateStorage_node_ne C j [] st dt h
  · rfl
  all_goals exact getNode_setNode_ne _ _ _ h

theorem setNewNodeState_numNodes (C : Collab) (st : St) (j : ℕ) (dt : ℚ) :
    (setNewNodeState C st j dt).numNodes = st.numNodes ∧
    (setNewNodeState C st j dt).numLinks = st.numLinks ∧
    (setNewNodeState C st j dt).link = st.link := by
  simp only [setNewNodeState]
  split_ifs with h1 h2
  · exact updateStorage_numNodes C j [] st dt
  all_goals exact ⟨rfl, rfl, rfl⟩

theorem setNewNodeState_ntype (C : Collab) (st : St) (j : ℕ) (dt : ℚ)
    (k : ℕ) :
    (getNode (setNewNodeState C st j dt) k).ntype = (getNode st k).ntype := by
  simp only [setNewNodeState]
  split_ifs with h1 h2
  · exact updateStorage_ntype C j [] st dt k
  · rfl
  all_goals
    by_cases hk : k = j
  all_goals first
    | (subst hk; simp)
    | rw [getNode_setNode_ne _ _ _ hk]

theorem setNewNodeState_fullVolume (C : Collab) (st : St) (j : ℕ) (dt : ℚ)
    (k : ℕ) :
    (getNode (setNewNodeState C st j dt) k).fullVolume =
      (getNode st k).fullVolume := by
  simp only [setNewNodeState]
  split_ifs with h1 h2
  · exact updateStorage_fullVolume C j [] st dt k
  · rfl
  all_goals
    by_cases hk : k = j
  all_goals first
    | (subst hk; simp)
    | rw [getNode_setNode_ne _ _ _ hk]

/-- After `setNewNodeState` node `j` has nonnegative overflow and volume,
given a nonnegative full volume and that an already-updated node was already
in that state. -/
theorem setNewNodeState_QOk (C : Collab) (st : St) (j : ℕ) (dt : ℚ)
    (hfv : 0 ≤ (getNode st j).fullVolume)
    (hq : (getNode st j).updated = true → QOk (getNode st j)) :
    QOk (getNode (setNewNodeState C st j dt) j) := by
  simp only [setNewNodeState]
  by_cases h1 : (getNode st j).ntype = NType.STORAGE
  · simp only [if_pos h1]
    by_cases h2 : (getNode st j).updated = false
    · simp only [if_pos h2]
      rcases updateStorage_cases C j [] st dt with ⟨hc, heq⟩ | ⟨_, _, _, _, hQ⟩
      · rcases hc with hc | hc
        · exact absurd h1 hc
        · rw [heq]
          exact hq hc
      · exact hQ hfv
    · simp only [if_neg h2]
      exact hq (by simpa using h2)
  · simp only [if_neg h1, getNode_setNode_self]
    constructor
    · show (0:ℚ) ≤ _
      split_ifs
      all_goals first
        | exact le_refl 0
        | linarith [FUDGE_pos]
    · show (0:ℚ) ≤ _
      split_ifs
      all_goals first
        | exact hfv
        | exact le_refl 0
        | linarith [FUDGE_pos]

/-- `setNewNodeState` marks storage nodes as updated. -/
theorem setNewNodeState_storage_updated (C : Collab) (st : St) (j : ℕ)
    (dt : ℚ) (hS : (getNode st j).ntype = NType.STORAGE) :
    (getNode (setNewNodeState C st j dt) j).updated = true := by
  simp only [setNewNodeState, if_pos hS]
  by_cases h2 : (getNode st j).updated = false
  · simp only [if_pos h2]
    rcases updateStorage_cases C j [] st dt with ⟨hc, heq⟩ | ⟨_, _, hU, _, _⟩
    · rcases hc with hc | hc
      · exact absurd hS hc
      · exact absurd hc (h2 ▸ (by simp))
    · exact hU
  · simp only [if_neg h2]
    simpa using h2

/-- `setNewNodeState` leaves the `updated` flag of a non-storage node
unchanged. -/
theorem setNewNodeState_nonstorage_updated (C : Collab) (st : St) (j : ℕ)
    (dt : ℚ) (hS : (getNode st j).ntype ≠ NType.STORAGE) :
    (getNode (setNewNodeState C st j dt) j).updated =
      (getNode st j).updated := by
  simp only [setNewNodeState, if_neg hS, getNode_setNode_self]

/-- `setNewNodeState` can set `updated` only on storage nodes. -/
theorem setNewNodeState_updated (C : Collab) (st : St) (j : ℕ) (dt : ℚ)
    (k : ℕ) :
    (getNode (setNewNodeState C st j dt) k).updated =
        (getNode st k).updated ∨
    ((getNode st k).ntype = NType.STORAGE ∧
      (getNode (setNewNodeState C st j dt) k).updated = true) := by
  by_cases hk : k = j
  · subst hk
    by_cases hS : (getNode st k).ntype = NType.STORAGE
    · exact Or.inr ⟨hS, setNewNodeState_storage_updated C st k dt hS⟩
    · exact Or.inl (setNewNodeState_nonstorage_updated C st k dt hS)
  · exact Or.inl (by rw [setNewNodeState_node_ne C st j dt hk])

/-! ## Invariants carried across a routing step -/

/-- Every node's full volume is nonnegative (a property of the project's
geometry, never written by the routing step). -/
def fvOk (st : St) : Prop := ∀ k, 0 ≤ (getNode st k).fullVolume

/-- Every network node marked updated has nonnegative overflow and volume. -/
def updQ (st : St) : Prop :=
  ∀ k, k < st.numNodes → (getNode st k).updated = true →
    QOk (getNode st k)

/-- Only storage nodes are marked updated. -/
def updOnlyStorage (st : St) : Prop :=
  ∀ k, k < st.numNodes → (getNode st k).updated = true →
    (getNode st k).ntype = NType.STORAGE

/-- Node fields preserved by an update that only touches flow accumulators. -/
theorem modifyNode_flow_fields (st : St) (i : ℕ) (f : NodeSt → NodeSt)
    (hf : ∀ n, (f n).ntype = n.ntype ∧ (f n).updated = n.updated ∧
         (f n).overflow = n.overflow ∧ (f n).newVolume = n.newVolume ∧
         (f n).fullVolume = n.fullVolume) (k : ℕ) :
    (getNode (modifyNode st i f) k).ntype = (getNode st k).ntype ∧
    (getNode (modifyNode st i f) k).updated = (getNode st k).updated ∧
    (getNode (modifyNode st i f) k).overflow = (getNode st k).overflow ∧
    (getNode (modifyNode st i f) k).newVolume = (getNode st k).newVolume ∧
    (getNode (modifyNode st i f) k).fullVolume = (getNode st k).fullVolume := by
  by_cases hk : k = i
  · subst hk
    simpa using hf (getNode st k)
  · rw [getNode_modifyNode_ne _ _ _ hk]
    exact ⟨rfl, rfl, rfl, rfl, rfl⟩

/-- The invariants are preserved by `updateStorageState`, which also keeps
every node's type and full volume. -/
theorem updateStorage_inv (C : Collab) (i : ℕ) (suffix : List ℕ) (st : St)
    (dt : ℚ) :
    (fvOk st → fvOk (updateStorageState C i suffix st dt)) ∧
    (fvOk st → updQ st → updQ (updateStorageState C i suffix st dt)) ∧
    (updOnlyStorage st → updOnlyStorage (updateStorageState C i suffix st dt)) := by
  have hnn := (updateStorage_numNodes C i suffix st dt).1
  refine ⟨?_, ?_, ?_⟩
  · intro hfv k
    rw [updateStorage_fullVolume]
    exact hfv k
  · intro hfv hq k hk hu
    rw [hnn] at hk
    by_cases hki : k = i
    · subst hki
      rcases updateStorage_cases C k suffix st dt with ⟨_, heq⟩ | ⟨_, _, _, _, hQ⟩
      · rw [heq] at hu ⊢
        exact hq k hk hu
      · exact hQ (hfv k)
    · rw [updateStorage_node_ne C i suffix st dt hki] at hu ⊢
      exact hq k hk hu
  · intro hs k hk hu
    rw [hnn] at hk
    by_cases hki : k = i
    · subst hki
      rcases updateStorage_updated C k suffix st dt k with he | ⟨_, hS, _⟩
      · rw [he] at hu
        rw [updateStorage_ntype]
        exact hs k hk hu
      · rw [updateStorage_ntype]
        exact hS
    · rw [updateStorage_node_ne C i suffix st dt hki] at hu ⊢
      exact hs k hk hu

/-- Relation between two states whose node arrays agree on every field the
step invariants mention (and on the node count). -/
def nodeInvPres (st st' : St) : Prop :=
  st'.numNodes = st.numNodes ∧
  ∀ k, (getNode st' k).ntype = (getNode st k).ntype ∧
       (getNode st' k).updated = (getNode st k).updated ∧
       (getNode st' k).overflow = (getNode st k).overflow ∧
       (getNode st' k).newVolume = (getNode st k).newVolume ∧
       (getNode st' k).fullVolume = (getNode st k).fullVolume

theorem nodeInvPres_refl (st : St) : nodeInvPres st st :=
  ⟨rfl, fun _ => ⟨rfl, rfl, rfl, rfl, rfl⟩⟩

theorem nodeInvPres_trans {a b c : St} (h1 : nodeInvPres a b)
    (h2 : nodeInvPres b c) : nodeInvPres a c := by
  refine ⟨h2.1.trans h1.1, fun k => ?_⟩
  obtain ⟨x1, x2, x3, x4, x5⟩ := h1.2 k
  obtain ⟨y1, y2, y3, y4, y5⟩ := h2.2 k
  exact ⟨y1.trans x1, y2.trans x2, y3.trans x3, y4.trans x4, y5.trans x5⟩

theorem nodeInvPres_inv {st st' : St} (h : nodeInvPres st st') :
    (fvOk st → fvOk st') ∧ (updQ st → updQ st') ∧
    (updOnlyStorage st → updOnlyStorage st') := by
  obtain ⟨hn, hf⟩ := h
  refine ⟨fun hfv k => ?_, fun hq k hk hu => ?_, fun hs k hk hu => ?_⟩
  · rw [(hf k).2.2.2.2]; exact hfv k
  · obtain ⟨_, h2, h3, h4, _⟩ := hf k
    rw [hn] at hk
    rw [h2] at hu
    have := hq k hk hu
    exact ⟨h3 ▸ this.1, h4 ▸ this.2⟩
  · obtain ⟨h1, h2, _, _, _⟩ := hf k
    rw [hn] at hk
    rw [h2] at hu
    rw [h1]
    exact hs k hk hu

theorem nodeInvPres_setLinkMap (st : St) (lk : ℕ → LinkSt) :
    nodeInvPres st (setLinkMap st lk) :=
  ⟨rfl, fun _ => ⟨rfl, rfl, rfl, rfl, rfl⟩⟩

theorem nodeInvPres_modifyLink (st : St) (j : ℕ) (f : LinkSt → LinkSt) :
    nodeInvPres st (modifyLink st j f) :=
  ⟨rfl, fun _ => ⟨rfl, rfl, rfl, rfl, rfl⟩⟩

theorem nodeInvPres_outflowAcc (st : St) (i : ℕ) (q : ℚ) :
    nodeInvPres st (modifyNode st i (fun n => { n with outflow := n.outflow + q })) := by
  refine ⟨rfl, fun k => ?_⟩
  exact modifyNode_flow_fields st i
    (fun n => { n with outflow := n.outflow + q })
    (fun n => ⟨rfl, rfl, rfl, rfl, rfl⟩) k

theorem nodeInvPres_inflowAcc (st : St) (i : ℕ) (q : ℚ) :
    nodeInvPres st (modifyNode st i (fun n => { n with inflow := n.inflow + q })) := by
  refine ⟨rfl, fun k => ?_⟩
  exact modifyNode_flow_fields st i
    (fun n => { n with inflow := n.inflow + q })
    (fun n => ⟨rfl, rfl, rfl, rfl, rfl⟩) k

/-- One body of the per-link routing loop preserves the step invariants and
the node count. -/
theorem routeLinkStep_inv (C : Collab) (useSF : Bool) (tStep : ℚ) (st : St)
    (suffix : List ℕ) (j : ℕ) :
    (routeLinkStep C useSF tStep st suffix j).1.numNodes = st.numNodes ∧
    (fvOk st → fvOk (routeLinkStep C useSF tStep st suffix j).1) ∧
    (fvOk st → updQ st → updQ (routeLinkStep C useSF tStep st suffix j).1) ∧
    (updOnlyStorage st →
      updOnlyStorage (routeLinkStep C useSF tStep st suffix j).1) := by
  simp only [routeLinkStep]
  set n1 := (getLink st j).node1 with hn1
  set stA := (if (getNode st n1).ntype = NType.STORAGE
      then updateStorageState C n1 suffix st tStep else st) with hA
  have hAinv : stA.numNodes = st.numNodes ∧
      (fvOk st → fvOk stA) ∧ (fvOk st → updQ st → updQ stA) ∧
      (updOnlyStorage st → updOnlyStorage stA) := by
    rw [hA]
    split_ifs with hS
    · obtain ⟨a, b, c⟩ := updateStorage_inv C n1 suffix st tStep
      exact ⟨(updateStorage_numNodes C _ _ st tStep).1, a, b, c⟩
    · exact ⟨rfl, fun h => h, fun _ h => h, fun h => h⟩
  set qin := getLinkInflow C stA j tStep with hqin
  set r := (if useSF then steadyflow_execute C stA j qin tStep
            else C.kinwave_execute stA j qin tStep) with hr
  set stB := setLinkMap stA r.2.2.2 with hB
  set stC := modifyLink stB j (fun l => { l with newFlow := r.2.2.1 }) with hC
  set stD := modifyNode stC ((getLink stC j).node1)
      (fun n => { n with outflow := n.outflow + r.2.1 }) with hD
  set stE := modifyNode stD ((getLink stD j).node2)
      (fun n => { n with inflow := n.inflow + r.2.2.1 }) with hE
  have p1 : nodeInvPres stA stB := nodeInvPres_setLinkMap stA r.2.2.2
  have p2 : nodeInvPres stB stC := nodeInvPres_modifyLink stB j _
  have p3 : nodeInvPres stC stD := nodeInvPres_outflowAcc stC _ _
  have p4 : nodeInvPres stD stE := nodeInvPres_inflowAcc stD _ _
  have hpres : nodeInvPres stA stE :=
    nodeInvPres_trans p1 (nodeInvPres_trans p2 (nodeInvPres_trans p3 p4))
  obtain ⟨hp1, hp2, hp3⟩ := nodeInvPres_inv hpres
  refine ⟨hpres.1.trans hAinv.1, ?_, ?_, ?_⟩
  · intro hfv
    exact hp1 (hAinv.2.1 hfv)
  · intro hfv hq
    exact hp2 (hAinv.2.2.1 hfv hq)
  · intro hs
    exact hp3 (hAinv.2.2.2 hs)

/-- The full per-link routing loop preserves the step invariants and the node
count. -/
theorem routeLinks_inv (C : Collab) (useSF : Bool) (tStep : ℚ) :
    ∀ (ls : List ℕ) (st : St),
      (routeLinks C useSF tStep st ls).1.numNodes = st.numNodes ∧
      (fvOk st → fvOk (routeLinks C useSF tStep st ls).1) ∧
      (fvOk st → updQ st → updQ (routeLinks C useSF tStep st ls).1) ∧
      (updOnlyStorage st → updOnlyStorage (routeLinks C useSF tStep st ls).1) := by
  intro ls
  induction ls with
  | nil => intro st; exact ⟨rfl, fun h => h, fun _ h => h, fun h => h⟩
  | cons j rest ih =>
    intro st
    obtain ⟨s1, s2, s3, s4⟩ :=
      routeLinkStep_inv C useSF tStep st (j :: rest) j
    obtain ⟨i1, i2, i3, i4⟩ := ih (routeLinkStep C useSF tStep st (j :: rest) j).1
    simp only [routeLinks]
    refine ⟨i1.trans s1, ?_, ?_, ?_⟩
    · intro hfv; exact i2 (s2 hfv)
    · intro hfv hq; exact i3 (s2 hfv) (s3 hfv hq)
    · intro hs; exact i4 (s4 hs)

/-! ## Preamble, node-loop and link-loop lemmas -/

theorem stepPre_numNodes (st : St) (t : ℚ) :
    (stepPre st t).numNodes = st.numNodes := rfl

theorem stepPre_updated (st : St) (t : ℚ) {k : ℕ} (hk : k < st.numNodes) :
    (getNode (stepPre st t) k).updated = false := by
  simp only [stepPre, getNode, if_pos hk]
  split_ifs <;> rfl

theorem stepPre_ntype (st : St) (t : ℚ) (k : ℕ) :
    (getNode (stepPre st t) k).ntype = (getNode st k).ntype := by
  simp only [stepPre, getNode]
  split_ifs <;> rfl

theorem stepPre_fullVolume (st : St) (t : ℚ) (k : ℕ) :
    (getNode (stepPre st t) k).fullVolume = (getNode st k).fullVolume := by
  simp only [stepPre, getNode]
  split_ifs <;> rfl

/-- After the preamble, only storage nodes can carry `updated = true` (none
does), and the `updQ` invariant holds vacuously. -/
theorem stepPre_inv (st : St) (t : ℚ) :
    updQ (stepPre st t) ∧ updOnlyStorage (stepPre st t) := by
  constructor
  · intro k hk hu
    rw [stepPre_numNodes] at hk
    rw [stepPre_updated st t hk] at hu
    exact absurd hu (by simp)
  · intro k hk hu
    rw [stepPre_numNodes] at hk
    rw [stepPre_updated st t hk] at hu
    exact absurd hu (by simp)

theorem stepPre_fvOk (st : St) (t : ℚ) (hfv : fvOk st) :
    fvOk (stepPre st t) := by
  intro k
  rw [stepPre_fullVolume]
  exact hfv k

/-- The node loop of `flowrout_execute` (line 191): the invariants continue
to hold, node types are untouched, previously secured properties persist, and
every processed index ends with nonnegative overflow and volume, with every
processed storage node marked updated. -/
theorem nodeFold_inv (C : Collab) (dt : ℚ) :
    ∀ (is : List ℕ) (st : St), fvOk st → updQ st →
      (∀ j ∈ is, j < st.numNodes) →
      ((is.foldl (fun s j => setNewNodeState C s j dt) st).numNodes =
        st.numNodes) ∧
      fvOk (is.foldl (fun s j => setNewNodeState C s j dt) st) ∧
      updQ (is.foldl (fun s j => setNewNodeState C s j dt) st) ∧
      (∀ k, (getNode (is.foldl (fun s j => setNewNodeState C s j dt) st) k).ntype =
        (getNode st k).ntype) ∧
      (updOnlyStorage st →
        updOnlyStorage (is.foldl (fun s j => setNewNodeState C s j dt) st)) ∧
      (∀ k, QOk (getNode st k) →
        QOk (getNode (is.foldl (fun s j => setNewNodeState C s j dt) st) k)) ∧
      (∀ k, (getNode st k).ntype = NType.STORAGE →
        (getNode st k).updated = true →
        (getNode (is.foldl (fun s j => setNewNodeState C s j dt) st) k).updated
          = true) ∧
      (∀ j ∈ is, QOk
        (getNode (is.foldl (fun s j => setNewNodeState C s j dt) st) j)) ∧
      (∀ j ∈ is, (getNode st j).ntype = NType.STORAGE →
        (getNode (is.foldl (fun s j => setNewNodeState C s j dt) st) j).updated
          = true) ∧
      (∀ j, (getNode st j).ntype ≠ NType.STORAGE →
        (getNode (is.foldl (fun s j => setNewNodeState C s j dt) st) j).updated
          = (getNode st j).updated) := by
  intro is
  induction is with
  | nil =>
    intro st hfv hq _
    exact ⟨rfl, hfv, hq, fun _ => rfl, fun h => h, fun _ h => h,
      fun _ _ h => h, by simp, by simp, fun _ _ => rfl⟩
  | cons j rest ih =>
    intro st hfv hq his
    simp only [List.foldl_cons]
    have hjlt : j < st.numNodes := his j (List.mem_cons_self j rest)
    -- invariants at the state after processing index j
    have hfv1 : fvOk (setNewNodeState C st j dt) := by
      intro k
      rw [setNewNodeState_fullVolume]
      exact hfv k
    have hq1 : updQ (setNewNodeState C st j dt) := by
      intro k hk hu
      rw [(setNewNodeState_numNodes C st j dt).1] at hk
      by_cases hkj : k = j
      · subst hkj
        exact setNewNodeState_QOk C st k dt (hfv k) (fun h => hq k hk h)
      · rw [setNewNodeState_node_ne C st j dt hkj] at hu ⊢
        exact hq k hk hu
    have his1 : ∀ m ∈ rest, m < (setNewNodeState C st j dt).numNodes := by
      intro m hm
      rw [(setNewNodeState_numNodes C st j dt).1]
      exact his m (List.mem_cons_of_mem j hm)
    obtain ⟨r1, r2, r3, r4, r5, r6, r7, r8, r9, r10⟩ :=
      ih (setNewNodeState C st j dt) hfv1 hq1 his1
    refine ⟨r1.trans (setNewNodeState_numNodes C st j dt).1, r2, r3, ?_, ?_,
      ?_, ?_, ?_, ?_, ?_⟩
    · intro k
      rw [r4 k, setNewNodeState_ntype]
    · intro hs
      refine r5 ?_
      intro k hk hu
      rw [(setNewNodeState_numNodes C st j dt).1] at hk
      rw [setNewNodeState_ntype]
      rcases setNewNodeState_updated C st j dt k with he | ⟨hS, _⟩
      · rw [he] at hu
        exact hs k hk hu
      · exact hS
    · -- QOk persists through the whole fold
      intro k hk
      refine r6 k ?_
      by_cases hkj : k = j
      · subst hkj
        exact setNewNodeState_QOk C st k dt (hfv k) (fun _ => hk)
      · rw [setNewNodeState_node_ne C st j dt hkj]
        exact hk
    · -- updated storage nodes stay updated
      intro k hkS hkU
      refine r7 k (by rw [setNewNodeState_ntype]; exact hkS) ?_
      by_cases hkj : k = j
      · subst hkj
        exact setNewNodeState_storage_updated C st k dt hkS
      · rw [setNewNodeState_node_ne C st j dt hkj]
        exact hkU
    · -- every processed index ends with QOk
      intro m hm
      rcases List.mem_cons.mp hm with hmj | hmr
      · subst hmj
        refine r6 m ?_
        exact setNewNodeState_QOk C st m dt (hfv m)
          (fun h => hq m hjlt h)
      · exact r8 m hmr
    · -- every processed storage node ends updated
      intro m hm hmS
      rcases List.mem_cons.mp hm with hmj | hmr
      · subst hmj
        refine r7 m (by rw [setNewNodeState_ntype]; exact hmS) ?_
        exact setNewNodeState_storage_updated C st m dt hmS
      · refine r9 m hmr ?_
        rw [setNewNodeState_ntype]
        exact hmS
    · -- non-storage nodes keep their flag
      intro m hmS
      have h1 := r10 m (by rw [setNewNodeState_ntype]; exact hmS)
      rw [h1]
      by_cases hmj : m = j
      · subst hmj
        exact setNewNodeState_nonstorage_updated C st m dt hmS
      · rw [setNewNodeState_node_ne C st j dt hmj]

theorem nodeInvPres_updateNodeDepth (st : St) (i : ℕ) (y : ℚ) :
    nodeInvPres st (updateNodeDepth st i y) := by
  simp only [updateNodeDepth]
  split_ifs
  all_goals first
    | exact nodeInvPres_refl st
    | (refine ⟨rfl, fun k => ?_⟩
       by_cases hk : k = i
       · subst hk
         simp
       · rw [getNode_setNode_ne _ _ _ hk]
         exact ⟨rfl, rfl, rfl, rfl, rfl⟩)

theorem updateNodeDepth_numNodes (st : St) (i : ℕ) (y : ℚ) :
    (updateNodeDepth st i y).numNodes = st.numNodes := by
  simp only [updateNodeDepth]
  split_ifs <;> rfl

theorem updateNodeDepth_ntype (st : St) (i : ℕ) (y : ℚ) (k : ℕ) :
    (getNode (updateNodeDepth st i y) k).ntype = (getNode st k).ntype :=
  ((nodeInvPres_updateNodeDepth st i y).2 k).1

theorem updateNodeDepth_updated (st : St) (i : ℕ) (y : ℚ) (k : ℕ) :
    (getNode (updateNodeDepth st i y) k).updated = (getNode st k).updated :=
  ((nodeInvPres_updateNodeDepth st i y).2 k).2.1

theorem updateNodeDepth_overflow (st : St) (i : ℕ) (y : ℚ) (k : ℕ) :
    (getNode (updateNodeDepth st i y) k).overflow = (getNode st k).overflow :=
  ((nodeInvPres_updateNodeDepth st i y).2 k).2.2.1

theorem updateNodeDepth_newVolume (st : St) (i : ℕ) (y : ℚ) (k : ℕ) :
    (getNode (updateNodeDepth st i y) k).newVolume =
      (getNode st k).newVolume :=
  ((nodeInvPres_updateNodeDepth st i y).2 k).2.2.2.1

theorem updateNodeDepth_fullVolume (st : St) (i : ℕ) (y : ℚ) (k : ℕ) :
    (getNode (updateNodeDepth st i y) k).fullVolume =
      (getNode st k).fullVolume :=
  ((nodeInvPres_updateNodeDepth st i y).2 k).2.2.2.2

theorem nodeInvPres_setNewLinkState (C : Collab) (st : St) (j : ℕ) :
    nodeInvPres st (setNewLinkState C st j) := by
  refine ⟨?_, fun k => ⟨?_, ?_, ?_, ?_, ?_⟩⟩ <;>
    simp only [setNewLinkState] <;> split_ifs <;>
    simp [updateNodeDepth_numNodes, updateNodeDepth_ntype,
      updateNodeDepth_updated, updateNodeDepth_overflow,
      updateNodeDepth_newVolume, updateNodeDepth_fullVolume]

/-- The link loop of `flowrout_execute` (line 192) leaves all
invariant-relevant node fields unchanged. -/
theorem linkFold_pres (C : Collab) :
    ∀ (is : List ℕ) (st : St),
      nodeInvPres st (is.foldl (fun s j => setNewLinkState C s j) st) := by
  intro is
  induction is with
  | nil => intro st; exact nodeInvPres_refl st
  | cons j rest ih =>
    intro st
    simp only [List.foldl_cons]
    exact nodeInvPres_trans (nodeInvPres_setNewLinkState C st j)
      (ih (setNewLinkState C st j))

/-- The node loop, `updated`-flag bookkeeping only (no hypotheses needed):
types are untouched, the only-storage invariant is preserved, updated storage
nodes stay updated, every processed storage node ends updated, and non-storage
nodes keep their flag. -/
theorem nodeFold_updated (C : Collab) (dt : ℚ) :
    ∀ (is : List ℕ) (st : St),
      ((is.foldl (fun s j => setNewNodeState C s j dt) st).numNodes =
        st.numNodes) ∧
      (∀ k, (getNode (is.foldl (fun s j => setNewNodeState C s j dt) st) k).ntype =
        (getNode st k).ntype) ∧
      (updOnlyStorage st →
        updOnlyStorage (is.foldl (fun s j => setNewNodeState C s j dt) st)) ∧
      (∀ k, (getNode st k).ntype = NType.STORAGE →
        (getNode st k).updated = true →
        (getNode (is.foldl (fun s j => setNewNodeState C s j dt) st) k).updated
          = true) ∧
      (∀ j ∈ is, (getNode st j).ntype = NType.STORAGE →
        (getNode (is.foldl (fun s j => setNewNodeState C s j dt) st) j).updated
          = true) ∧
      (∀ j, (getNode st j).ntype ≠ NType.STORAGE →
        (getNode (is.foldl (fun s j => setNewNodeState C s j dt) st) j).updated
          = (getNode st j).updated) := by
  intro is
  induction is with
  | nil =>
    intro st
    exact ⟨rfl, fun _ => rfl, fun h => h, fun _ _ h => h, by simp,
      fun _ _ => rfl⟩
  | cons j rest ih =>
    intro st
    simp only [List.foldl_cons]
    obtain ⟨r1, r2, r3, r4, r5, r6⟩ := ih (setNewNodeState C st j dt)
    refine ⟨r1.trans (setNewNodeState_numNodes C st j dt).1, ?_, ?_, ?_, ?_,
      ?_⟩
    · intro k
      rw [r2 k, setNewNodeState_ntype]
    · intro hs
      refine r3 ?_
      intro k hk hu
      rw [(setNewNodeState_numNodes C st j dt).1] at hk
      rw [setNewNodeState_ntype]
      rcases setNewNodeState_updated C st j dt k with he | ⟨hS, _⟩
      · rw [he] at hu
        exact hs k hk hu
      · exact hS
    · intro k hkS hkU
      refine r4 k (by rw [setNewNodeState_ntype]; exact hkS) ?_
      by_cases hkj : k = j
      · subst hkj
        exact setNewNodeState_storage_updated C st k dt hkS
      · rw [setNewNodeState_node_ne C st j dt hkj]
        exact hkU
    · intro m hm hmS
      rcases List.mem_cons.mp hm with hmj | hmr
      · subst hmj
        refine r4 m (by rw [setNewNodeState_ntype]; exact hmS) ?_
        exact setNewNodeState_storage_updated C st m dt hmS
      · refine r5 m hmr ?_
        rw [setNewNodeState_ntype]
        exact hmS
    · intro m hmS
      have h1 := r6 m (by rw [setNewNodeState_ntype]; exact hmS)
      rw [h1]
      by_cases hmj : m = j
      · subst hmj
        exact setNewNodeState_nonstorage_updated C st m dt hmS
      · rw [setNewNodeState_node_ne C st j dt hmj]

/-! ## Claim C1 -/

/-- C1 (amended): after a non-dynamic routing step the nodes whose `updated`
flag is true are exactly the storage nodes; non-storage nodes keep the flag
false (it is reset in the preamble and never set again for them). -/
theorem flowrout_updated_iff_storage (C : Collab) (useSF : Bool)
    (links : List ℕ) (st : St) (tStep : ℚ) :
    ∀ j, j < st.numNodes →
      ((getNode (flowrout_execute C useSF links st tStep).1 j).updated = true
        ↔ (getNode (flowrout_execute C useSF links st tStep).1 j).ntype =
            NType.STORAGE) := by
  intro j hj
  simp only [flowrout_execute]
  set st1 := stepPre st tStep with h1
  set r := routeLinks C useSF tStep st1 links with hrr
  set st3 := (List.range r.1.numNodes).foldl
      (fun s j => setNewNodeState C s j tStep) r.1 with h3
  set st4 := (List.range st3.numLinks).foldl
      (fun s j => setNewLinkState C s j) st3 with h4
  obtain ⟨rn, _, _, rs⟩ := routeLinks_inv C useSF tStep links st1
  have hNn : r.1.numNodes = st.numNodes := by
    rw [rn]; exact stepPre_numNodes st tStep
  obtain ⟨f1, f2, f3, f4, f5, f6⟩ :=
    nodeFold_updated C tStep (List.range r.1.numNodes) r.1
  have hpres := linkFold_pres C (List.range st3.numLinks) st3
  have hfields := hpres.2 j
  constructor
  · -- updated implies storage
    intro hu
    have hs3 : updOnlyStorage st3 := by
      refine f3 ?_
      exact rs ((stepPre_inv st tStep).2)
    rw [hfields.2.1] at hu
    have hj3 : j < st3.numNodes := by
      rw [f1, hNn]; exact hj
    rw [hfields.1]
    exact hs3 j hj3 hu
  · -- storage implies updated
    intro hS
    rw [hfields.1, f2 j] at hS
    have hmem : j ∈ List.range r.1.numNodes := by
      rw [List.mem_range, hNn]; exact hj
    have := f5 j hmem hS
    rw [hfields.2.1]
    exact this

/-- A concrete trivial instantiation of the external collaborators, used to
evaluate the model on explicit inputs. -/
def trivCollab : Collab where
  link_getInflow := fun _ _ => 1
  node_getMaxOutflow := fun _ _ q _ => q
  node_getDepth := fun _ v => v
  link_getLossRate := fun _ _ _ _ => 0
  xsect_getAofS := fun _ s => s
  xsect_getYofA := fun _ a => a
  link_getLength := fun _ _ => 1
  kinwave_execute := fun st _ qin _ => (1, qin, qin, st.link)
  AllowPonding := false

/-- A one-junction, zero-link network. -/
def stJunction : St where
  numNodes := 1
  numLinks := 0
  node := fun _ => { ntype := NType.JUNCTION }
  link := fun _ => default

/-- C1 (counterexample to the claim as stated): on a network consisting of a
single junction node, after a kinematic-wave `flowrout_execute` step the
node's `updated` flag is still false — the claim that every node's flag is
true fails. -/
theorem flowrout_updated_counterexample :
    0 < stJunction.numNodes ∧
    (getNode (flowrout_execute trivCollab false [] stJunction 1).1 0).updated
      = false := by
  constructor
  · decide
  · decide

/-- Witness for the amended C1 theorem at a concrete storage-node network. -/
def stStorage : St where
  numNodes := 1
  numLinks := 0
  node := fun _ => { ntype := NType.STORAGE }
  link := fun _ => default

theorem flowrout_updated_iff_storage_witness :
    0 < stStorage.numNodes ∧
    ((getNode (flowrout_execute trivCollab false [] stStorage 1).1 0).updated
        = true
      ↔ (getNode (flowrout_execute trivCollab false [] stStorage 1).1 0).ntype
        = NType.STORAGE) :=
  ⟨by decide, flowrout_updated_iff_storage trivCollab false [] stStorage 1 0
    (by decide)⟩

/-! ## Claim C7 -/

/-- C7: after a steady/kinematic routing step every node has nonnegative
overflow rate and nonnegative stored volume, provided every node's full
volume is nonnegative (full volumes are geometry, never written by the
step). -/
theorem flowrout_overflow_volume_nonneg (C : Collab) (useSF : Bool)
    (links : List ℕ) (st : St) (tStep : ℚ)
    (hfv : ∀ k, 0 ≤ (getNode st k).fullVolume) :
    ∀ j, j < st.numNodes →
      0 ≤ (getNode (flowrout_execute C useSF links st tStep).1 j).overflow ∧
      0 ≤ (getNode (flowrout_execute C useSF links st tStep).1 j).newVolume := by
  intro j hj
  simp only [flowrout_execute]
  set st1 := stepPre st tStep with h1
  set r := routeLinks C useSF tStep st1 links with hrr
  set st3 := (List.range r.1.numNodes).foldl
      (fun s j => setNewNodeState C s j tStep) r.1 with h3
  set st4 := (List.range st3.numLinks).foldl
      (fun s j => setNewLinkState C s j) st3 with h4
  obtain ⟨rn, rf, rq, _⟩ := routeLinks_inv C useSF tStep links st1
  have hNn : r.1.numNodes = st.numNodes := by
    rw [rn]; exact stepPre_numNodes st tStep
  have hfv1 : fvOk st1 := stepPre_fvOk st tStep hfv
  have hfvr : fvOk r.1 := rf hfv1
  have hqr : updQ r.1 := rq hfv1 (stepPre_inv st tStep).1
  have hisr : ∀ m ∈ List.range r.1.numNodes, m < r.1.numNodes := by
    intro m hm; exact List.mem_range.mp hm
  obtain ⟨g1, g2, g3, g4, g5, g6, g7, g8, g9, g10⟩ :=
    nodeFold_inv C tStep (List.range r.1.numNodes) r.1 hfvr hqr hisr
  have hmem : j ∈ List.range r.1.numNodes := by
    rw [List.mem_range, hNn]; exact hj
  have hQ3 : QOk (getNode st3 j) := g8 j hmem
  have hpres := linkFold_pres C (List.range st3.numLinks) st3
  have hfields := hpres.2 j
  exact ⟨hfields.2.2.1 ▸ hQ3.1, hfields.2.2.2.1 ▸ hQ3.2⟩

theorem flowrout_overflow_volume_nonneg_witness :
    (∀ k, 0 ≤ (getNode stJunction k).fullVolume) ∧ 0 < stJunction.numNodes ∧
    (0 ≤ (getNode (flowrout_execute trivCollab false [] stJunction 1).1 0).overflow ∧
     0 ≤ (getNode (flowrout_execute trivCollab false [] stJunction 1).1 0).newVolume) :=
  ⟨fun _ => le_refl 0, by decide,
    flowrout_overflow_volume_nonneg trivCollab false [] stJunction 1
      (fun _ => le_refl 0) 0 (by decide)⟩

/-! ## Claim C3 -/

/-- C3: for a not-yet-updated storage node the successive-approximation loop
either stops with an under-relaxed depth change within STOPTOL or executes
the maximal number of iterations allowed by the `iter < MAXITER` guard
(`MAXITER - 1` body executions, so the iteration count never exceeds
MAXITER); in either case the node keeps the last iterate's state — its final
depth is the last depth estimate — is marked updated, and the (total)
function returns normally, so no assertion can fire. -/
theorem updateStorage_converges_or_clamps (C : Collab) (i : ℕ)
    (suffix : List ℕ) (st : St) (dt : ℚ)
    (hS : (getNode st i).ntype = NType.STORAGE)
    (hU : (getNode st i).updated = false) :
    (updateStorageRun C i suffix st dt).iters ≤ MAXITER - 1 ∧
    (((updateStorageRun C i suffix st dt).stopped = true ∧
      |(updateStorageRun C i suffix st dt).dNew -
        (updateStorageRun C i suffix st dt).dPrev| ≤ STOPTOL) ∨
     ((updateStorageRun C i suffix st dt).stopped = false ∧
      (updateStorageRun C i suffix st dt).iters = MAXITER - 1)) ∧
    (getNode (updateStorageRun C i suffix st dt).st i).newDepth =
      (updateStorageRun C i suffix st dt).dNew ∧
    (getNode (updateStorageRun C i suffix st dt).st i).updated = true := by
  have h1 : ¬((getNode st i).ntype ≠ NType.STORAGE) := by simp [hS]
  have h2 : ¬((getNode st i).updated = true) := by simp [hU]
  simp only [updateStorageRun, if_neg h1, if_neg h2]
  set vF := (getNode st i).oldVolume +
    1/2 * ((getNode st i).oldNetInflow + (getNode st i).inflow -
      (getNode st i).outflow) * dt with hvF
  set d0 := (getNode st i).newDepth with hd0
  have hfuel : (1:ℕ) ≤ MAXITER - 1 := by norm_num [MAXITER]
  refine ⟨storageLoop_iters_le C i suffix dt vF (MAXITER - 1) st d0, ?_, ?_, ?_⟩
  · rcases Bool.eq_false_or_eq_true
      (storageLoop C i suffix dt vF (MAXITER - 1) st d0).stopped with hb | hb
    · exact Or.inl ⟨hb, storageLoop_stopped_tol C i suffix dt vF _ st d0 hb⟩
    · exact Or.inr ⟨hb, storageLoop_not_stopped C i suffix dt vF _ st d0 hb⟩

  · simp only [getNode_modifyNode_self]
    exact storageLoop_newDepth C i suffix dt vF (MAXITER - 1) st d0 hfuel
  · simp

theorem updateStorage_converges_or_clamps_witness :
    ((getNode stStorage 0).ntype = NType.STORAGE ∧
     (getNode stStorage 0).updated = false) ∧
    ((updateStorageRun trivCollab 0 [] stStorage 1).iters ≤ MAXITER - 1 ∧
    (((updateStorageRun trivCollab 0 [] stStorage 1).stopped = true ∧
      |(updateStorageRun trivCollab 0 [] stStorage 1).dNew -
        (updateStorageRun trivCollab 0 [] stStorage 1).dPrev| ≤ STOPTOL) ∨
     ((updateStorageRun trivCollab 0 [] stStorage 1).stopped = false ∧
      (updateStorageRun trivCollab 0 [] stStorage 1).iters = MAXITER - 1)) ∧
    (getNode (updateStorageRun trivCollab 0 [] stStorage 1).st 0).newDepth =
      (updateStorageRun trivCollab 0 [] stStorage 1).dNew ∧
    (getNode (updateStorageRun trivCollab 0 [] stStorage 1).st 0).updated
      = true) :=
  ⟨⟨by decide, by decide⟩,
    updateStorage_converges_or_clamps trivCollab 0 [] stStorage 1
      (by decide) (by decide)⟩

/-! ## Claim C5 -/

/-- Modelled from the spec: the outflow sum as the specification states it —
the sum of the current inflow into every link of the (remaining) topo-sorted
link array whose upstream node is the storage node, wherever those links
appear. -/
def specStorageOutflow (C : Collab) (st : St) (i : ℕ) (dt : ℚ)
    (links : List ℕ) : ℚ :=
  ((links.filter (fun m => (getLink st m).node1 = i)).map
    (fun m => getLinkInflow C st m dt)).sum

/-- A three-link network whose storage node 0 has outlet links at positions 0
and 2 of the link array, with an unrelated link in between. -/
def stBreak : St where
  numNodes := 2
  numLinks := 3
  node := fun k => if k = 0 then { ntype := NType.STORAGE }
                   else { ntype := NType.JUNCTION }
  link := fun m => if m = 1 then { node1 := 1 } else { node1 := 0 }

/-- C5 (counterexample to the claim as stated): when the outlet links of a
storage node are not contiguous in the topo-sorted array, `getStorageOutflow`
(which breaks at the first link with a different upstream node) misses the
later outlet link: it returns 1 while the sum over every outlet link is 2. -/
theorem getStorageOutflow_counterexample :
    (getLink stBreak 0).node1 = 0 ∧ (getLink stBreak 2).node1 = 0 ∧
    (getLink stBreak 1).node1 ≠ 0 ∧
    getStorageOutflow trivCollab stBreak 0 1 [0, 1, 2] = 1 ∧
    specStorageOutflow trivCollab stBreak 0 1 [0, 1, 2] = 2 ∧
    getStorageOutflow trivCollab stBreak 0 1 [0, 1, 2] ≠
      specStorageOutflow trivCollab stBreak 0 1 [0, 1, 2] := by
  have e1 : getStorageOutflow trivCollab stBreak 0 1 [0, 1, 2] = 1 := by
    simp [getStorageOutflow, getLinkInflow, getLink, getNode, trivCollab,
      stBreak]
  have e2 : specStorageOutflow trivCollab stBreak 0 1 [0, 1, 2] = 2 := by
    simp [specStorageOutflow, getLinkInflow, getLink, getNode, trivCollab,
      stBreak]
    norm_num
  refine ⟨rfl, rfl, by decide, e1, e2, ?_⟩
  rw [e1, e2]
  norm_num

/-- C5 (amended): `getStorageOutflow` computes the specification's sum over
all outlet links exactly when the storage node's outlet links form a
contiguous run at the current position of the topo-sorted array (which the
topological sort of a tree layout guarantees): it sums the maximal initial
run of links whose upstream node is the storage node and stops at the first
other link. -/
theorem getStorageOutflow_contiguous (C : Collab) (st : St) (i : ℕ)
    (dt : ℚ) :
    ∀ (pre post : List ℕ),
      (∀ m ∈ pre, (getLink st m).node1 = i) →
      (∀ m ∈ post, (getLink st m).node1 ≠ i) →
      getStorageOutflow C st i dt (pre ++ post) =
        specStorageOutflow C st i dt (pre ++ post) := by
  intro pre
  induction pre with
  | nil =>
    intro post _ hpost
    simp only [List.nil_append]
    have h1 : getStorageOutflow C st i dt post = 0 := by
      cases post with
      | nil => rfl
      | cons m rest =>
        simp only [getStorageOutflow,
          if_pos (hpost m (List.mem_cons_self m rest))]
    have h2 : post.filter (fun m => (getLink st m).node1 = i) = [] := by
      rw [List.filter_eq_nil_iff]
      intro m hm
      simpa using hpost m hm
    rw [h1, specStorageOutflow, h2]
    rfl
  | cons m pre ih =>
    intro post hpre hpost
    have hm : (getLink st m).node1 = i := hpre m (List.mem_cons_self m pre)
    have hpre' : ∀ x ∈ pre, (getLink st x).node1 = i :=
      fun x hx => hpre x (List.mem_cons_of_mem m hx)
    simp only [List.cons_append, getStorageOutflow, if_neg (not_not.mpr hm),
      List.append_eq]
    rw [ih post hpre' hpost]
    simp only [specStorageOutflow, List.filter_cons]
    rw [if_pos (by simpa using hm)]
    simp

theorem getStorageOutflow_contiguous_witness :
    ((∀ m ∈ [0], (getLink stBreak m).node1 = 0) ∧
     (∀ m ∈ [1], (getLink stBreak m).node1 ≠ 0)) ∧
    getStorageOutflow trivCollab stBreak 0 1 ([0] ++ [1]) =
      specStorageOutflow trivCollab stBreak 0 1 ([0] ++ [1]) :=
  ⟨⟨by decide, by decide⟩,
    getStorageOutflow_contiguous trivCollab stBreak 0 1 [0] [1]
      (by decide) (by decide)⟩

/-! ## Claim C6 -/

/-- C6: steady-flow routing.  For a conduit with a non-DUMMY cross section
the per-barrel flow is `qin/barrels` minus the loss rate floored at 0; above
`qFull` it is clamped, `a1` is set to `aFull` and the link inflow rewritten
to `qFull·barrels`, otherwise `a1` comes from the section factor `q/β`; in
both cases `a2 = a1` and the outflow is `q·barrels`.  Every non-conduit link
passes its inflow through unchanged. -/
theorem steadyflow_execute_spec (C : Collab) (st : St) (j : ℕ)
    (qin tStep : ℚ) :
    ((getLink st j).ltype = LType.CONDUIT →
      (getLink st j).xtype ≠ XType.DUMMY →
      (let lk := getLink st j
       let q1 := max 0 (qin / lk.barrels -
         C.link_getLossRate st j (qin / lk.barrels) tStep)
       let r := steadyflow_execute C st j qin tStep
       if q1 > lk.qFull then
         r.2.1 = lk.qFull * lk.barrels ∧ (r.2.2.2 j).a1 = lk.aFull ∧
         (r.2.2.2 j).a2 = (r.2.2.2 j).a1 ∧ r.2.2.1 = lk.qFull * lk.barrels
       else
         r.2.1 = qin ∧
         (r.2.2.2 j).a1 = C.xsect_getAofS lk (q1 / lk.beta) ∧
         (r.2.2.2 j).a2 = (r.2.2.2 j).a1 ∧ r.2.2.1 = q1 * lk.barrels)) ∧
    ((getLink st j).ltype ≠ LType.CONDUIT →
      (steadyflow_execute C st j qin tStep).2.1 = qin ∧
      (steadyflow_execute C st j qin tStep).2.2.1 = qin ∧
      (steadyflow_execute C st j qin tStep).2.2.2 = st.link) := by
  constructor
  · intro hc hx
    have hmax : ∀ x : ℚ, (if x < 0 then (0:ℚ) else x) = max 0 x := by
      intro x
      rcases lt_or_le x 0 with h | h
      · rw [if_pos h, max_eq_left h.le]
      · rw [if_neg (not_lt.mpr h), max_eq_right h]
    simp only [steadyflow_execute, if_pos hc, if_neg hx]
    rw [hmax]
    split_ifs with hq
    all_goals refine ⟨?_, ?_, ?_, ?_⟩ <;> simp [modifyLink, getLink]
  · intro hc
    simp [steadyflow_execute, if_neg hc]

/-- A two-node, one-conduit network with ample capacity. -/
def stConduit : St where
  numNodes := 2
  numLinks := 1
  node := fun _ => { ntype := NType.JUNCTION }
  link := fun _ => { ltype := LType.CONDUIT, node1 := 0, node2 := 1,
                     barrels := 2, beta := 1, qFull := 10, aFull := 4 }

theorem steadyflow_execute_spec_witness :
    ((getLink stConduit 0).ltype = LType.CONDUIT →
      (getLink stConduit 0).xtype ≠ XType.DUMMY →
      (let lk := getLink stConduit 0
       let q1 := max 0 (6 / lk.barrels -
         trivCollab.link_getLossRate stConduit 0 (6 / lk.barrels) 1)
       let r := steadyflow_execute trivCollab stConduit 0 6 1
       if q1 > lk.qFull then
         r.2.1 = lk.qFull * lk.barrels ∧ (r.2.2.2 0).a1 = lk.aFull ∧
         (r.2.2.2 0).a2 = (r.2.2.2 0).a1 ∧ r.2.2.1 = lk.qFull * lk.barrels
       else
         r.2.1 = 6 ∧
         (r.2.2.2 0).a1 = trivCollab.xsect_getAofS lk (q1 / lk.beta) ∧
         (r.2.2.2 0).a2 = (r.2.2.2 0).a1 ∧ r.2.2.1 = q1 * lk.barrels)) ∧
    ((getLink stConduit 0).ltype ≠ LType.CONDUIT →
      (steadyflow_execute trivCollab stConduit 0 6 1).2.1 = 6 ∧
      (steadyflow_execute trivCollab stConduit 0 6 1).2.2.1 = 6 ∧
      (steadyflow_execute trivCollab stConduit 0 6 1).2.2.2 =
        stConduit.link) :=
  steadyflow_execute_spec trivCollab stConduit 0 6 1

/-! ## Claim C8: sub-area runoff -/

/-- State of one sub-area (the fields of `TSubarea` used by the embedded
runoff code of subcatch.c). -/
structure Subarea where
  N : ℚ := 0
  dStore : ℚ := 0
  alpha : ℚ := 0
  depth : ℚ := 0
  inflow : ℚ := 0
deriving DecidableEq, Repr

/-- `findSubareaRunoff` (subcatch.c, lines 1022-1053): runoff from a sub-area
after the ponded-depth update.  `powf` abstracts the C library `pow` used for
the Manning exponent.  Returns the runoff rate and the (possibly clamped)
sub-area. -/
def findSubareaRunoff (powf : ℚ → ℚ → ℚ) (sa : Subarea) (tRunoff : ℚ) :
    ℚ × Subarea :=
  let xDepth := sa.depth - sa.dStore
  if xDepth > depthZERO then
    if sa.N > 0 then (sa.alpha * powf xDepth MEXP, sa)
    else (xDepth / tRunoff, { sa with depth := sa.dStore })
  else (0, sa)

/-- `updatePondedDepth` (subcatch.c, lines 1057-1108); `integrate` abstracts
`odesolve_integrate` applied to the ponded-depth ODE.  Returns the updated
sub-area and the time during which the depth exceeded depression storage. -/
def updatePondedDepth (integrate : Subarea → ℚ → ℚ) (sa : Subarea)
    (dt : ℚ) : Subarea × ℚ :=
  let ix := sa.inflow
  let tx := dt
  let p : Subarea × ℚ :=
    if sa.depth + ix * tx ≤ sa.dStore then
      ({ sa with depth := sa.depth + ix * tx }, tx)
    else
      let dx := sa.dStore - sa.depth
      let q := if dx > 0 ∧ ix > 0 then ({ sa with depth := sa.dStore }, tx - dx / ix)
               else (sa, tx)
      if q.1.alpha > 0 ∧ q.2 > 0 then
        ({ q.1 with depth := integrate q.1 q.2 }, q.2)
      else
        let tx2 := if q.2 < 0 then 0 else q.2
        ({ q.1 with depth := q.1.depth + ix * tx2 }, tx2)
  (if p.1.depth < 0 then { p.1 with depth := 0 } else p.1, p.2)

/-- A sub-area with α = 0 but positive Manning n (e.g. zero slope or width),
above its depression storage. -/
def saAlphaZero : Subarea :=
  { N := 1, dStore := 0, alpha := 0, depth := 1, inflow := 0 }

/-- C8 (counterexample to the claim as stated): for a sub-area with α = 0 but
Manning n > 0 whose depth exceeds its depression storage, the code takes the
nonlinear branch (it tests `N > 0`, not α): runoff is α·(D−dStore)^MEXP = 0
and the depth is NOT clamped back to dStore, against the claimed instantaneous
spill runoff (D−dStore)/dt. -/
theorem findSubareaRunoff_alpha_counterexample :
    saAlphaZero.alpha = 0 ∧
    saAlphaZero.depth - saAlphaZero.dStore > depthZERO ∧
    (findSubareaRunoff (fun x _ => x) saAlphaZero 1).1 = 0 ∧
    (findSubareaRunoff (fun x _ => x) saAlphaZero 1).2.depth = 1 ∧
    (saAlphaZero.depth - saAlphaZero.dStore) / 1 ≠ 0 := by
  refine ⟨rfl, by norm_num [saAlphaZero, depthZERO], ?_, ?_, ?_⟩
  · norm_num [findSubareaRunoff, saAlphaZero, depthZERO]
  · norm_num [findSubareaRunoff, saAlphaZero, depthZERO]
  · norm_num [saAlphaZero]

/-- C8 (amended): the instantaneous-spill branch is selected by Manning
n = 0 (the code tests `N > 0`), not by α = 0. For a sub-area with n ≤ 0:
whenever the ponded depth exceeds depression storage by more than the ZERO
tolerance, the depth is clamped back to dStore and the runoff equals
(depth − dStore)/tRunoff, where tRunoff is the time during which the depth
exceeded dStore (as returned by updatePondedDepth); when the depth is at or
below dStore the runoff is 0. -/
theorem findSubareaRunoff_manning_zero (powf : ℚ → ℚ → ℚ) (sa : Subarea)
    (tRunoff : ℚ) (hN : sa.N ≤ 0) :
    (sa.depth - sa.dStore > depthZERO →
      findSubareaRunoff powf sa tRunoff =
        ((sa.depth - sa.dStore) / tRunoff, { sa with depth := sa.dStore })) ∧
    (sa.depth ≤ sa.dStore →
      findSubareaRunoff powf sa tRunoff = (0, sa)) := by
  constructor
  · intro hx
    simp only [findSubareaRunoff, if_pos hx, if_neg (not_lt.mpr hN)]
  · intro hd
    have hz : ¬(sa.depth - sa.dStore > depthZERO) := by
      have : (0:ℚ) < depthZERO := by norm_num [depthZERO]
      push_neg
      linarith
    simp only [findSubareaRunoff, if_neg hz]

/-- A sub-area with Manning n = 0 above its depression storage. -/
def saManningZero : Subarea :=
  { N := 0, dStore := 0, alpha := 0, depth := 1, inflow := 0 }

theorem findSubareaRunoff_manning_zero_witness :
    saManningZero.N ≤ 0 ∧
    ((saManningZero.depth - saManningZero.dStore > depthZERO →
      findSubareaRunoff (fun x _ => x) saManningZero 2 =
        ((saManningZero.depth - saManningZero.dStore) / 2,
          { saManningZero with depth := saManningZero.dStore })) ∧
     (saManningZero.depth ≤ saManningZero.dStore →
      findSubareaRunoff (fun x _ => x) saManningZero 2 = (0, saManningZero))) :=
  ⟨le_refl 0,
    findSubareaRunoff_manning_zero (fun x _ => x) saManningZero 2 (le_refl 0)⟩

/-! ## Claim C9: street-sweeping window -/

/-- The street-sweeping window test of `runoff_execute` (runoff.c, line 194):
the code compares the day of the year against the project's REPORTING time
step `ReportStep` (a step length in seconds), not a sweep-season start day. -/
def canSweepOf (day ReportStep SweepEnd : ℤ) : Bool :=
  day ≥ ReportStep ∧ day ≤ SweepEnd

/-- Modelled from the spec: "sweeping if within sweep season" — sweeping may
occur when the day of the year lies within [SweepStart, SweepEnd]; the
`SweepStart` global is defined outside src/ and never consulted by
runoff_execute. -/
def inSweepSeason (day SweepStart SweepEnd : ℤ) : Bool :=
  SweepStart ≤ day ∧ day ≤ SweepEnd

/-- The actions applied to one subcatchment's pollutant state in
`runoff_execute` (runoff.c, lines 252-260): buildup accretion when runoff is
negligible, sweeping when the window test passes and rainfall is negligible,
and an unconditional washoff computation. -/
structure QualActions where
  buildup : Bool
  sweep : Bool
  washoff : Bool
deriving DecidableEq, Repr

def runoffQualDispatch (runoff rainfall : ℚ) (canSweep : Bool) :
    QualActions :=
  { buildup := runoff < MIN_RUNOFF,
    sweep := canSweep && decide (rainfall ≤ MIN_RUNOFF),
    washoff := true }

/-- C9 (code bug): with a 900-second reporting step, sweep season day 1 to
day 365 and zero rainfall, day 100 lies in the sweep season, yet the code's
window test `day >= ReportStep && day <= SweepEnd` is false (100 < 900), so
no sweeping is applied: the day-of-year is compared against a time step in
seconds instead of the sweep-season start day. -/
theorem sweep_window_code_bug :
    inSweepSeason 100 1 365 = true ∧
    canSweepOf 100 900 365 = false ∧
    (runoffQualDispatch 0 0 (canSweepOf 100 900 365)).sweep = false ∧
    (runoffQualDispatch 0 0 (inSweepSeason 100 1 365)).sweep = true := by
  refine ⟨by decide, by decide, ?_, ?_⟩
  · simp [runoffQualDispatch, canSweepOf]
  · simp only [runoffQualDispatch, inSweepSeason]
    norm_num [MIN_RUNOFF]

/-! ## Claim C4: hot-start NaN handling -/

/-- Read-relevant state of an open hot-start file: the remaining stream of
floating-point values, each abstracted to its is-NaN flag (the integer
header fields precede this stream), and whether ERR_HOTSTART_FILE_READ has
been reported. -/
structure HSt where
  vals : List Bool
  errRead : Bool
deriving DecidableEq, Repr

/-- `readFloat` (hotstart.c, lines 506-524): reads one 4-byte float; a NaN
value reports ERR_HOTSTART_FILE_READ, is zeroed, and the read fails.  `prev`
is the caller's current value of the reused local variable `x`, which
`fread` leaves untouched at end-of-file; the NaN test then applies to it.
Returns (success, is-NaN of the value now in x, state). -/
def readFloat (prev : Bool) (s : HSt) : Bool × Bool × HSt :=
  match s.vals with
  | [] =>
    if prev then (false, false, { s with errRead := true })
    else (true, prev, s)
  | v :: rest =>
    if v then (false, false, { vals := rest, errRead := true })
    else (true, false, { s with vals := rest })

/-- `readDouble` (hotstart.c, lines 528-551): at end-of-file the value is
zeroed and ERR_HOTSTART_FILE_READ is reported; a NaN value is zeroed and the
read fails but — unlike `readFloat` — no error is reported. -/
def readDouble (s : HSt) : Bool × HSt :=
  match s.vals with
  | [] => (false, { s with errRead := true })
  | v :: rest =>
    if v then (false, { s with vals := rest })
    else (true, { s with vals := rest })

/-- A run of `n` consecutive `readFloat` calls into the same local variable,
stopping at the first failure (every caller in hotstart.c returns on a failed
read). -/
def readFloats : ℕ → Bool → HSt → Bool × Bool × HSt
  | 0, x, s => (true, x, s)
  | n + 1, x, s =>
    let r := readFloat x s
    if r.1 then readFloats n r.2.1 r.2.2 else r

/-- A run of `n` consecutive `readDouble` calls, stopping at the first
failure. -/
def readDoubles : ℕ → HSt → Bool × HSt
  | 0, s => (true, s)
  | n + 1, s =>
    let r := readDouble s
    if r.1 then readDoubles n r.2 else r

/-- Project shape consulted while reading a hot-start file. -/
structure HCfg where
  version : ℕ
  nSubcatch : ℕ
  nNodes : ℕ
  nLinks : ℕ
  nPollut : ℕ
  nLandUses : ℕ
  isStorage : ℕ → Bool
  hasGW : ℕ → Bool
  hasSnow : ℕ → Bool

/-- Number of doubles read for one subcatchment in `readRunoff`
(hotstart.c, lines 437-502): 3 ponded depths + runoff, 6 infiltration
values, 4 groundwater values if present, 3×5 snowpack values if present,
and, when pollutants exist, runoff + ponded quality and per-land-use
buildup + last-swept. -/
def subcatchDoubleCount (cfg : HCfg) (i : ℕ) : ℕ :=
  4 + 6 + (if cfg.hasGW i then 4 else 0) +
  (if cfg.hasSnow i then 15 else 0) +
  (if 0 < cfg.nPollut then
    2 * cfg.nPollut + cfg.nLandUses * (cfg.nPollut + 1) else 0)

/-- `readRunoff` (hotstart.c): per-subcatchment double reads, returning (that
is, stopping) at the first failed read — without touching the error state. -/
def readRunoffFrom (cfg : HCfg) : List ℕ → HSt → HSt
  | [], s => s
  | i :: rest, s =>
    let r := readDoubles (subcatchDoubleCount cfg i) s
    if r.1 then readRunoffFrom cfg rest r.2 else r.2

def readRunoff (cfg : HCfg) (s : HSt) : HSt :=
  readRunoffFrom cfg (List.range cfg.nSubcatch) s

/-- Number of floats read for one node in `readRouting` (hotstart.c, lines
307-338): depth + lateral flow, the storage HRT for storage nodes in
version ≥ 4 files, the pollutant qualities, and the extra zeros of
version ≤ 2 files. -/
def nodeFloatCount (cfg : HCfg) (i : ℕ) : ℕ :=
  2 + (if 4 ≤ cfg.version ∧ cfg.isStorage i then 1 else 0) + cfg.nPollut +
  (if cfg.version ≤ 2 then cfg.nPollut else 0)

/-- Number of floats read for one link in `readRouting` (lines 341-362):
flow, depth, setting and the pollutant qualities. -/
def linkFloatCount (cfg : HCfg) : ℕ := 3 + cfg.nPollut

def readRoutingNodes (cfg : HCfg) : List ℕ → Bool → HSt → Bool × Bool × HSt
  | [], x, s => (true, x, s)
  | i :: rest, x, s =>
    let r := readFloats (nodeFloatCount cfg i) x s
    if r.1 then readRoutingNodes cfg rest r.2.1 r.2.2 else r

/-- `readRouting` (hotstart.c, lines 275-363): the version-2 groundwater
floats, then the node section, then the link section, returning at the first
failed read. -/
def readRouting (cfg : HCfg) (s : HSt) : HSt :=
  let g := if cfg.version = 2 then readFloats (2 * cfg.nSubcatch) false s
           else (true, false, s)
  if g.1 then
    let n := readRoutingNodes cfg (List.range cfg.nNodes) g.2.1 g.2.2
    if n.1 then
      (readFloats (cfg.nLinks * linkFloatCount cfg) n.2.1 n.2.2).2.2
    else n.2.2
  else g.2.2

/-- The read phase of `openHotstartFile1` (hotstart.c, lines 100-182), after
the stamp and object-count header has been accepted: read the runoff section
for version ≥ 3 files, then the routing section, and succeed iff no read
error was reported (`if (sp->ErrorCode) return FALSE`). -/
def openHotstartFile1 (cfg : HCfg) (s : HSt) : Bool × HSt :=
  let s := if 3 ≤ cfg.version then readRunoff cfg s else s
  let s := readRouting cfg s
  (!s.errRead, s)

/-- A version-4 project with one subcatchment (no groundwater, snow or
pollutants) and no nodes or links. -/
def cfgNaN : HCfg :=
  { version := 4, nSubcatch := 1, nNodes := 0, nLinks := 0, nPollut := 0,
    nLandUses := 0, isStorage := fun _ => false, hasGW := fun _ => false,
    hasSnow := fun _ => false }

/-- C4 (counterexample to the claim as stated): a hot-start file whose first
subcatchment double is NaN.  The load stops reading the subcatchment section,
but ERR_HOTSTART_FILE_READ is NOT reported (readDouble's NaN branch reports
no error) and the open succeeds. -/
theorem hotstart_nan_double_counterexample :
    (openHotstartFile1 cfgNaN { vals := [true], errRead := false }).1
      = true ∧
    (openHotstartFile1 cfgNaN
      { vals := [true], errRead := false }).2.errRead = false := by
  constructor <;> decide

theorem readFloat_err_mono (prev : Bool) (s : HSt)
    (h : s.errRead = true) : (readFloat prev s).2.2.errRead = true := by
  obtain ⟨vals, err⟩ := s
  simp only at h
  subst h
  cases vals with
  | nil => simp only [readFloat]; split_ifs <;> rfl
  | cons v rest => simp only [readFloat]; split_ifs <;> rfl

theorem readFloats_err_mono :
    ∀ (n : ℕ) (x : Bool) (s : HSt), s.errRead = true →
      (readFloats n x s).2.2.errRead = true := by
  intro n
  induction n with
  | zero => intro x s h; exact h
  | succ n ih =>
    intro x s h
    simp only [readFloats]
    split_ifs with h1
    · exact ih _ _ (readFloat_err_mono x s h)
    · exact readFloat_err_mono x s h

theorem readDouble_err_mono (s : HSt) (h : s.errRead = true) :
    (readDouble s).2.errRead = true := by
  obtain ⟨vals, err⟩ := s
  simp only at h
  subst h
  cases vals with
  | nil => rfl
  | cons v rest => simp only [readDouble]; split_ifs <;> rfl

theorem readDoubles_err_mono :
    ∀ (n : ℕ) (s : HSt), s.errRead = true →
      (readDoubles n s).2.errRead = true := by
  intro n
  induction n with
  | zero => intro s h; exact h
  | succ n ih =>
    intro s h
    simp only [readDoubles]
    split_ifs with h1
    · exact ih _ (readDouble_err_mono s h)
    · exact readDouble_err_mono s h

theorem readRunoffFrom_err_mono (cfg : HCfg) :
    ∀ (is : List ℕ) (s : HSt), s.errRead = true →
      (readRunoffFrom cfg is s).errRead = true := by
  intro is
  induction is with
  | nil => intro s h; exact h
  | cons i rest ih =>
    intro s h
    simp only [readRunoffFrom]
    split_ifs with h1
    · exact ih _ (readDoubles_err_mono _ s h)
    · exact readDoubles_err_mono _ s h

theorem readRoutingNodes_err_mono (cfg : HCfg) :
    ∀ (is : List ℕ) (x : Bool) (s : HSt), s.errRead = true →
      (readRoutingNodes cfg is x s).2.2.errRead = true := by
  intro is
  induction is with
  | nil => intro x s h; exact h
  | cons i rest ih =>
    intro x s h
    simp only [readRoutingNodes]
    split_ifs with h1
    · exact ih _ _ (readFloats_err_mono _ x s h)
    · exact readFloats_err_mono _ x s h

theorem readRouting_err_mono (cfg : HCfg) (s : HSt)
    (h : s.errRead = true) : (readRouting cfg s).errRead = true := by
  simp only [readRouting]
  split_ifs
  all_goals
    repeat
      first
        | exact h
        | apply readFloats_err_mono
        | apply readRoutingNodes_err_mono

/-- C4 (amended): a NaN 4-byte float reports ERR_HOTSTART_FILE_READ and
fails the read, and once a read error is reported it persists to the end of
the load, whose success is exactly the absence of a reported read error;
but a NaN 8-byte double (subcatchment section) only fails its read silently:
the error state is left as it was, and the open can still succeed. -/
theorem hotstart_nan_read_errors :
    (∀ (prev : Bool) (s : HSt), s.vals.head? = some true →
      (readFloat prev s).1 = false ∧
      (readFloat prev s).2.2.errRead = true) ∧
    (∀ s : HSt, s.vals.head? = some true →
      (readDouble s).1 = false ∧
      (readDouble s).2.errRead = s.errRead) ∧
    (∀ (cfg : HCfg) (s : HSt),
      (openHotstartFile1 cfg s).1 =
        !(openHotstartFile1 cfg s).2.errRead) ∧
    (∀ (cfg : HCfg) (s : HSt), s.errRead = true →
      (openHotstartFile1 cfg s).2.errRead = true) := by
  refine ⟨?_, ?_, ?_, ?_⟩
  · intro prev s hh
    unfold readFloat
    cases hv : s.vals with
    | nil => rw [hv] at hh; exact absurd hh (by simp)
    | cons v rest =>
      rw [hv] at hh
      have : v = true := by simpa using hh
      subst this
      simp
  · intro s hh
    unfold readDouble
    cases hv : s.vals with
    | nil => rw [hv] at hh; exact absurd hh (by simp)
    | cons v rest =>
      rw [hv] at hh
      have : v = true := by simpa using hh
      subst this
      simp
  · intro cfg s
    rfl
  · intro cfg s h
    simp only [openHotstartFile1]
    split_ifs with h1
    · exact readRouting_err_mono cfg _
        (readRunoffFrom_err_mono cfg _ s h)
    · exact readRouting_err_mono cfg s h

theorem hotstart_nan_read_errors_witness :
    (({ vals := [true], errRead := false } : HSt).vals.head? = some true ∧
      (readFloat false { vals := [true], errRead := false }).1 = false ∧
      (readFloat false { vals := [true], errRead := false }).2.2.errRead
        = true) ∧
    ((readDouble { vals := [true], errRead := false }).1 = false ∧
      (readDouble { vals := [true], errRead := false }).2.errRead = false) ∧
    (openHotstartFile1 cfgNaN { vals := [true], errRead := true }).2.errRead
      = true :=
  ⟨⟨by decide,
    (hotstart_nan_read_errors.1 false { vals := [true], errRead := false }
      (by decide)).1,
    (hotstart_nan_read_errors.1 false { vals := [true], errRead := false }
      (by decide)).2⟩,
   ⟨(hotstart_nan_read_errors.2.1 { vals := [true], errRead := false }
      (by decide)).1,
    (hotstart_nan_read_errors.2.1 { vals := [true], errRead := false }
      (by decide)).2⟩,
   hotstart_nan_read_errors.2.2.2 cfgNaN { vals := [true], errRead := true }
     (by decide)⟩

/-! ## Claims C2 and C10: the binary output stream -/

/-- One cell of the binary output file: an 8-byte double, a 4-byte float,
or one raw byte (the abstract header also holds 4-byte ints and ID strings;
only its total byte size matters, so raw bytes suffice to model it). -/
inductive Cell where
  | r8 : ℚ → Cell
  | r4 : ℚ → Cell
  | b1 : ℕ → Cell
deriving DecidableEq, Repr

/-- Byte size of a cell. -/
def Cell.size : Cell → ℕ
  | r8 _ => 8
  | r4 _ => 4
  | b1 _ => 1

def sizeCells (cs : List Cell) : ℕ := (cs.map Cell.size).sum

/-- Reporting configuration fixed at `output_open`. -/
structure OutCfg where
  /-- `rptFlag` per subcatchment; length is `Nobjects[SUBCATCH]`. -/
  subFlags : List Bool
  nodeFlags : List Bool
  linkFlags : List Bool
  numPolluts : ℕ
  ReportStart : ℚ

/-- Modelled from the spec: `MAX_SUBCATCH_RESULTS` of enums.h (not under
src/); §4.9 gives NsubcatchResults = 8 + NumPolluts. -/
def MAX_SUBCATCH_RESULTS : ℕ := 9

/-- Modelled from the spec: `MAX_NODE_RESULTS` of enums.h (NnodeResults =
6 + NumPolluts). -/
def MAX_NODE_RESULTS : ℕ := 7

/-- Modelled from the spec: `MAX_LINK_RESULTS` of enums.h (NlinkResults =
5 + NumPolluts). -/
def MAX_LINK_RESULTS : ℕ := 6

/-- Modelled from the spec: `MAX_SYS_RESULTS` of enums.h — the count of
system-wide result variables saved each period. -/
def MAX_SYS_RESULTS : ℕ := 15

def NsubcatchResults (cfg : OutCfg) : ℕ :=
  MAX_SUBCATCH_RESULTS - 1 + cfg.numPolluts

def NnodeResults (cfg : OutCfg) : ℕ := MAX_NODE_RESULTS - 1 + cfg.numPolluts

def NlinkResults (cfg : OutCfg) : ℕ := MAX_LINK_RESULTS - 1 + cfg.numPolluts

/-- Indices of the reported objects, in index order (the `if rptFlag`
counting loops of output_open). -/
def rptIdx (flags : List Bool) : List ℕ :=
  (List.range flags.length).filter (fun j => flags.getD j false)

def NumSubcatch (cfg : OutCfg) : ℕ := (rptIdx cfg.subFlags).length

def NumNodes (cfg : OutCfg) : ℕ := (rptIdx cfg.nodeFlags).length

def NumLinks (cfg : OutCfg) : ℕ := (rptIdx cfg.linkFlags).length

/-- `BytesPerPeriod` as computed in `output_open` (output.c, lines
111-115). -/
def BytesPerPeriod (cfg : OutCfg) : ℕ :=
  8 + NumSubcatch cfg * (NsubcatchResults cfg * 4) +
  NumNodes cfg * (NnodeResults cfg * 4) +
  NumLinks cfg * (NlinkResults cfg * 4) + MAX_SYS_RESULTS * 4

/-- The result getters (`subcatch_getResults`, `node_getResults`,
`link_getResults`, the system totals) and the report-time-to-date
conversion, abstracted as functions of the report time. -/
structure OutEnv where
  getDateTime : ℚ → ℚ
  subR : ℚ → ℕ → List ℚ
  nodeR : ℚ → ℕ → List ℚ
  linkR : ℚ → ℕ → List ℚ
  sysR : ℚ → List ℚ

/-- One object section of a period record: a 4-byte result block for each
reported object, in index order. -/
def rptBlocks (flags : List Bool) (res : ℕ → List ℚ) : List (List Cell) :=
  (rptIdx flags).map (fun j => (res j).map Cell.r4)

/-- The record `output_saveResults` appends for one reporting time `t`
(output.c, lines 422-431): the 8-byte date, then — each guarded by
`Nobjects[...] > 0` exactly as in the C — the subcatchment, node and link
sections, then the system results. -/
def periodRecord (cfg : OutCfg) (E : OutEnv) (t : ℚ) : List Cell :=
  [Cell.r8 (E.getDateTime t)] ++
  (if 0 < cfg.subFlags.length then (rptBlocks cfg.subFlags (E.subR t)).flatten
   else []) ++
  (if 0 < cfg.nodeFlags.length then (rptBlocks cfg.nodeFlags (E.nodeR t)).flatten
   else []) ++
  (if 0 < cfg.linkFlags.length then (rptBlocks cfg.linkFlags (E.linkR t)).flatten
   else []) ++
  (E.sysR t).map Cell.r4

/-- The output file: the cells written so far and the `Nperiods` counter. -/
structure OutFile where
  cells : List Cell
  Nper : ℕ
deriving DecidableEq, Repr

/-- `output_saveResults` (output.c, lines 407-435): a no-op before the report
start date; otherwise appends exactly one period record and increments
Nperiods.  (The optional `iface_saveOutletResults` call writes to a different
file.) -/
def output_saveResults (cfg : OutCfg) (E : OutEnv) (f : OutFile) (t : ℚ) :
    OutFile :=
  if E.getDateTime t < cfg.ReportStart then f
  else { cells := f.cells ++ periodRecord cfg E t, Nper := f.Nper + 1 }

/-- The report times at or after the report start date. -/
def keptTimes (cfg : OutCfg) (E : OutEnv) (ts : List ℚ) : List ℚ :=
  ts.filter (fun t => ¬ E.getDateTime t < cfg.ReportStart)

/-- A whole run's output stream: the header written by `output_open`
(abstract: `OutputStartPos` is its byte size) followed by the reporting
records. -/
def simOut (cfg : OutCfg) (E : OutEnv) (header : List Cell) (ts : List ℚ) :
    OutFile :=
  ts.foldl (output_saveResults cfg E) { cells := header, Nper := 0 }

/-- Read `n` cells starting at byte offset `pos` (which must fall on a cell
boundary). -/
def readCellsAt : List Cell → ℕ → ℕ → Option (List Cell)
  | cs, pos, n =>
    if pos = 0 then (if n ≤ cs.length then some (cs.take n) else none)
    else match cs with
      | [] => none
      | c :: cs' =>
        if c.size ≤ pos then readCellsAt cs' (pos - c.size) n else none

/-- Byte position used by `output_readSubcatchResults` (output.c, lines
681-682). -/
def subBytePos (cfg : OutCfg) (startPos p k : ℕ) : ℕ :=
  startPos + (p - 1) * BytesPerPeriod cfg + 8 + k * (NsubcatchResults cfg * 4)

/-- Byte position used by `output_readNodeResults` (lines 702-704). -/
def nodeBytePos (cfg : OutCfg) (startPos p k : ℕ) : ℕ :=
  startPos + (p - 1) * BytesPerPeriod cfg + 8 +
  NumSubcatch cfg * (NsubcatchResults cfg * 4) + k * (NnodeResults cfg * 4)

/-- Byte position used by `output_readLinkResults` (lines 724-727). -/
def linkBytePos (cfg : OutCfg) (startPos p k : ℕ) : ℕ :=
  startPos + (p - 1) * BytesPerPeriod cfg + 8 +
  NumSubcatch cfg * (NsubcatchResults cfg * 4) +
  NumNodes cfg * (NnodeResults cfg * 4) + k * (NlinkResults cfg * 4)

/-! ### Byte-offset lemmas -/

theorem Cell.size_pos (c : Cell) : 0 < c.size := by
  cases c <;> simp [Cell.size]

@[simp] theorem sizeCells_nil : sizeCells [] = 0 := rfl

@[simp] theorem sizeCells_cons (c : Cell) (cs : List Cell) :
    sizeCells (c :: cs) = c.size + sizeCells cs := by
  simp [sizeCells]

theorem sizeCells_append (a b : List Cell) :
    sizeCells (a ++ b) = sizeCells a + sizeCells b := by
  simp [sizeCells]

theorem readCellsAt_skip_cell (c : Cell) (cs : List Cell) {pos : ℕ}
    (h0 : pos ≠ 0) (hc : c.size ≤ pos) (n : ℕ) :
    readCellsAt (c :: cs) pos n = readCellsAt cs (pos - c.size) n := by
  conv_lhs => rw [readCellsAt]
  rw [if_neg h0]
  exact if_pos hc

theorem readCellsAt_append (xs ys : List Cell) (p n : ℕ) :
    readCellsAt (xs ++ ys) (sizeCells xs + p) n = readCellsAt ys p n := by
  induction xs generalizing p with
  | nil => simp
  | cons c xs ih =>
    have hcp := Cell.size_pos c
    rw [List.cons_append, sizeCells_cons]
    rw [show c.size + sizeCells xs + p = c.size + (sizeCells xs + p) by ring]
    rw [readCellsAt_skip_cell c (xs ++ ys) (by omega) (by omega) n]
    rw [show c.size + (sizeCells xs + p) - c.size = sizeCells xs + p by omega]
    exact ih p

theorem readCellsAt_here (b rest : List Cell) (n : ℕ) (hb : b.length = n) :
    readCellsAt (b ++ rest) 0 n = some b := by
  conv_lhs => rw [readCellsAt.eq_def]
  dsimp only
  rw [if_pos rfl, if_pos (by simp [← hb]), List.take_left' hb]

theorem readCellsAt_flatten_blocks (L : ℕ) (bs : List (List Cell))
    (rest : List Cell) (k : ℕ) :
    ∀ (q n : ℕ), (∀ b ∈ bs, sizeCells b = L) → k ≤ bs.length →
      readCellsAt (bs.flatten ++ rest) (k * L + q) n =
        readCellsAt ((bs.drop k).flatten ++ rest) q n := by
  induction k generalizing bs with
  | zero => intro q n _ _; simp
  | succ k ih =>
    intro q n hall hk
    cases bs with
    | nil => simp at hk
    | cons b bs' =>
      have hsb : sizeCells b = L := hall b (List.mem_cons_self b bs')
      rw [List.flatten_cons, List.append_assoc]
      rw [show (k + 1) * L + q = sizeCells b + (k * L + q) by rw [hsb]; ring]
      rw [readCellsAt_append b (bs'.flatten ++ rest) (k * L + q) n]
      rw [List.drop_succ_cons]
      exact ih bs' q n (fun x hx => hall x (List.mem_cons_of_mem _ hx))
        (by simp only [List.length_cons] at hk; omega)

theorem sizeCells_r4 (l : List ℚ) :
    sizeCells (l.map Cell.r4) = l.length * 4 := by
  induction l with
  | nil => rfl
  | cons x xs ih =>
    simp only [List.map_cons, sizeCells_cons, List.length_cons, ih, Cell.size]
    ring

/-- `rptIdx` of an empty flag list is empty. -/
theorem rptIdx_nil_of_len0 (flags : List Bool) (h : flags.length = 0) :
    rptIdx flags = [] := by
  simp [rptIdx, h]

/-- Every block of a section has the size given by the result-vector
length. -/
theorem rptBlocks_size (flags : List Bool) (res : ℕ → List ℚ) (N : ℕ)
    (hres : ∀ j, (res j).length = N) :
    ∀ b ∈ rptBlocks flags res, sizeCells b = N * 4 := by
  intro b hb
  obtain ⟨j, _, rfl⟩ := List.mem_map.mp hb
  rw [sizeCells_r4, hres j]

/-- Total size of an object section, with the `Nobjects > 0` guard: the
reported count times the block size. -/
theorem sizeCells_section (flags : List Bool) (res : ℕ → List ℚ) (N : ℕ)
    (hres : ∀ j, (res j).length = N) :
    sizeCells (if 0 < flags.length then (rptBlocks flags res).flatten
      else []) = (rptIdx flags).length * (N * 4) := by
  split_ifs with h
  · unfold rptBlocks
    induction rptIdx flags with
    | nil => simp [sizeCells]
    | cons j js ih =>
      simp only [List.map_cons, List.flatten_cons, sizeCells_append, ih,
        List.length_cons, sizeCells_r4, hres j]
      ring
  · rw [rptIdx_nil_of_len0 flags (by omega)]
    simp [sizeCells]

/-- Reading the `k`-th block out of a section (plus anything after it). -/
theorem readCellsAt_section (flags : List Bool) (res : ℕ → List ℚ) (N : ℕ)
    (hres : ∀ j, (res j).length = N) (k : ℕ)
    (hk : k < (rptIdx flags).length) (tail : List Cell) :
    readCellsAt ((if 0 < flags.length then (rptBlocks flags res).flatten
        else []) ++ tail) (k * (N * 4)) N =
      some ((res ((rptIdx flags).getD k 0)).map Cell.r4) := by
  have hpos : 0 < flags.length := by
    by_contra h
    rw [rptIdx_nil_of_len0 flags (by omega)] at hk
    simp at hk
  rw [if_pos hpos]
  have hall := rptBlocks_size flags res N hres
  have h1 := readCellsAt_flatten_blocks (N * 4) (rptBlocks flags res) tail k
    0 N hall (by simpa [rptBlocks] using hk.le)
  rw [Nat.add_zero] at h1
  rw [h1]
  have hklen : k < (rptBlocks flags res).length := by
    simpa [rptBlocks] using hk
  rw [List.drop_eq_getElem_cons hklen, List.flatten_cons, List.append_assoc]
  have hget : (rptBlocks flags res)[k] =
      (res ((rptIdx flags).getD k 0)).map Cell.r4 := by
    simp only [rptBlocks, List.getElem_map]
    rw [List.getD_eq_getElem (rptIdx flags) 0 hk]
  rw [hget]
  exact readCellsAt_here _ _ N (by simp [hres])

/-- A period record occupies exactly `BytesPerPeriod` bytes. -/
theorem sizeCells_periodRecord (cfg : OutCfg) (E : OutEnv) (t : ℚ)
    (hs : ∀ j, (E.subR t j).length = NsubcatchResults cfg)
    (hn : ∀ j, (E.nodeR t j).length = NnodeResults cfg)
    (hl : ∀ j, (E.linkR t j).length = NlinkResults cfg)
    (hy : (E.sysR t).length = MAX_SYS_RESULTS) :
    sizeCells (periodRecord cfg E t) = BytesPerPeriod cfg := by
  simp only [periodRecord, sizeCells_append]
  rw [sizeCells_section _ _ _ hs, sizeCells_section _ _ _ hn,
    sizeCells_section _ _ _ hl, sizeCells_r4, hy]
  simp only [sizeCells_cons, sizeCells_nil, Cell.size]
  unfold BytesPerPeriod NumSubcatch NumNodes NumLinks
  ring

/-- Effect of folding `output_saveResults` over a list of report times. -/
theorem saveResults_fold (cfg : OutCfg) (E : OutEnv) :
    ∀ (ts : List ℚ) (f0 : OutFile),
      (ts.foldl (output_saveResults cfg E) f0).cells =
        f0.cells ++ ((keptTimes cfg E ts).map (periodRecord cfg E)).flatten ∧
      (ts.foldl (output_saveResults cfg E) f0).Nper =
        f0.Nper + (keptTimes cfg E ts).length := by
  intro ts
  induction ts with
  | nil => intro f0; simp [keptTimes]
  | cons t ts ih =>
    intro f0
    simp only [List.foldl_cons]
    obtain ⟨c1, c2⟩ := ih (output_saveResults cfg E f0 t)
    by_cases h : E.getDateTime t < cfg.ReportStart
    · constructor
      · rw [c1]
        simp [output_saveResults, if_pos h, keptTimes, List.filter_cons, h]
      · rw [c2]
        simp [output_saveResults, if_pos h, keptTimes, List.filter_cons, h]
    · constructor
      · rw [c1]
        simp only [output_saveResults, if_neg h, keptTimes,
          List.filter_cons]
        rw [if_pos (by simpa using h)]
        simp [List.append_assoc, keptTimes]
      · rw [c2]
        simp only [output_saveResults, if_neg h, keptTimes,
          List.filter_cons]
        rw [if_pos (by simpa using h)]
        simp only [List.length_cons, List.map_cons]
        omega

/-- Reading the `k`-th reported object's block inside one period record
(followed by arbitrary tail bytes), for each of the three object kinds, at
the offsets the readers compute past the 8-byte date. -/
theorem readCellsAt_record (cfg : OutCfg) (E : OutEnv) (t : ℚ)
    (tail : List Cell)
    (hs : ∀ j, (E.subR t j).length = NsubcatchResults cfg)
    (hn : ∀ j, (E.nodeR t j).length = NnodeResults cfg)
    (hl : ∀ j, (E.linkR t j).length = NlinkResults cfg) :
    (∀ k, k < NumSubcatch cfg →
      readCellsAt (periodRecord cfg E t ++ tail)
        (8 + k * (NsubcatchResults cfg * 4)) (NsubcatchResults cfg) =
      some ((E.subR t ((rptIdx cfg.subFlags).getD k 0)).map Cell.r4)) ∧
    (∀ k, k < NumNodes cfg →
      readCellsAt (periodRecord cfg E t ++ tail)
        (8 + NumSubcatch cfg * (NsubcatchResults cfg * 4) +
          k * (NnodeResults cfg * 4)) (NnodeResults cfg) =
      some ((E.nodeR t ((rptIdx cfg.nodeFlags).getD k 0)).map Cell.r4)) ∧
    (∀ k, k < NumLinks cfg →
      readCellsAt (periodRecord cfg E t ++ tail)
        (8 + NumSubcatch cfg * (NsubcatchResults cfg * 4) +
          NumNodes cfg * (NnodeResults cfg * 4) +
          k * (NlinkResults cfg * 4)) (NlinkResults cfg) =
      some ((E.linkR t ((rptIdx cfg.linkFlags).getD k 0)).map Cell.r4)) := by
  have hd : sizeCells [Cell.r8 (E.getDateTime t)] = 8 := by
    simp [sizeCells, Cell.size]
  have hS := sizeCells_section cfg.subFlags (E.subR t) _ hs
  have hNs := sizeCells_section cfg.nodeFlags (E.nodeR t) _ hn
  refine ⟨?_, ?_, ?_⟩
  · intro k hk
    simp only [periodRecord, List.append_assoc]
    rw [show 8 + k * (NsubcatchResults cfg * 4) =
      sizeCells [Cell.r8 (E.getDateTime t)] +
        k * (NsubcatchResults cfg * 4) by rw [hd]]
    rw [readCellsAt_append]
    exact readCellsAt_section cfg.subFlags (E.subR t) _ hs k hk _
  · intro k hk
    simp only [periodRecord, List.append_assoc]
    rw [← List.append_assoc [Cell.r8 (E.getDateTime t)]]
    rw [show 8 + NumSubcatch cfg * (NsubcatchResults cfg * 4) +
        k * (NnodeResults cfg * 4) =
      sizeCells ([Cell.r8 (E.getDateTime t)] ++
        (if 0 < cfg.subFlags.length then
          (rptBlocks cfg.subFlags (E.subR t)).flatten else [])) +
        k * (NnodeResults cfg * 4) by
      rw [sizeCells_append, hd, hS, NumSubcatch]]
    rw [readCellsAt_append]
    exact readCellsAt_section cfg.nodeFlags (E.nodeR t) _ hn k hk _
  · intro k hk
    simp only [periodRecord, List.append_assoc]
    rw [← List.append_assoc [Cell.r8 (E.getDateTime t)]]
    rw [← List.append_assoc ([Cell.r8 (E.getDateTime t)] ++
      (if 0 < cfg.subFlags.length then
        (rptBlocks cfg.subFlags (E.subR t)).flatten else []))]
    rw [show 8 + NumSubcatch cfg * (NsubcatchResults cfg * 4) +
        NumNodes cfg * (NnodeResults cfg * 4) + k * (NlinkResults cfg * 4) =
      sizeCells (([Cell.r8 (E.getDateTime t)] ++
        (if 0 < cfg.subFlags.length then
          (rptBlocks cfg.subFlags (E.subR t)).flatten else [])) ++
        (if 0 < cfg.nodeFlags.length then
          (rptBlocks cfg.nodeFlags (E.nodeR t)).flatten else [])) +
        k * (NlinkResults cfg * 4) by
      rw [sizeCells_append, sizeCells_append, hd, hS, hNs, NumSubcatch,
        NumNodes]]
    rw [readCellsAt_append]
    exact readCellsAt_section cfg.linkFlags (E.linkR t) _ hl k hk _

/-- C2: the reader's byte-offset computation lands exactly on the bytes the
writer appended.  For every written period `p` (1-based, among the reporting
times at or after the report start) and every reported object position `k`,
reading `Nresults` 4-byte values at the reader's offset
`OutputStartPos + (p-1)·BytesPerPeriod + 8 + (prior kinds) + k·Nresults·4`
returns exactly the value block written for that object in period `p` — for
subcatchments, nodes and links alike. -/
theorem output_period_roundtrip (cfg : OutCfg) (E : OutEnv)
    (header : List Cell) (ts : List ℚ) (p ks kn kl : ℕ)
    (hs : ∀ t j, (E.subR t j).length = NsubcatchResults cfg)
    (hn : ∀ t j, (E.nodeR t j).length = NnodeResults cfg)
    (hl : ∀ t j, (E.linkR t j).length = NlinkResults cfg)
    (hy : ∀ t, (E.sysR t).length = MAX_SYS_RESULTS)
    (hp1 : 1 ≤ p) (hp2 : p ≤ (keptTimes cfg E ts).length)
    (hks : ks < NumSubcatch cfg) (hkn : kn < NumNodes cfg)
    (hkl : kl < NumLinks cfg) :
    readCellsAt (simOut cfg E header ts).cells
        (subBytePos cfg (sizeCells header) p ks) (NsubcatchResults cfg) =
      some ((E.subR ((keptTimes cfg E ts).getD (p - 1) 0)
        ((rptIdx cfg.subFlags).getD ks 0)).map Cell.r4) ∧
    readCellsAt (simOut cfg E header ts).cells
        (nodeBytePos cfg (sizeCells header) p kn) (NnodeResults cfg) =
      some ((E.nodeR ((keptTimes cfg E ts).getD (p - 1) 0)
        ((rptIdx cfg.nodeFlags).getD kn 0)).map Cell.r4) ∧
    readCellsAt (simOut cfg E header ts).cells
        (linkBytePos cfg (sizeCells header) p kl) (NlinkResults cfg) =
      some ((E.linkR ((keptTimes cfg E ts).getD (p - 1) 0)
        ((rptIdx cfg.linkFlags).getD kl 0)).map Cell.r4) := by
  have hcells := (saveResults_fold cfg E ts { cells := header, Nper := 0 }).1
  set kt := keptTimes cfg E ts with hkt
  set tP := kt.getD (p - 1) 0 with htP
  set RS := kt.map (periodRecord cfg E) with hRS
  have hsizes : ∀ b ∈ RS, sizeCells b = BytesPerPeriod cfg := by
    intro b hb
    obtain ⟨u, _, rfl⟩ := List.mem_map.mp hb
    exact sizeCells_periodRecord cfg E u (hs u) (hn u) (hl u) (hy u)
  have hplen : p - 1 < RS.length := by
    rw [hRS, List.length_map]
    omega
  have hdrop : RS.drop (p - 1) = periodRecord cfg E tP :: RS.drop p := by
    have hlt : p - 1 < kt.length := by omega
    have h2 : kt.drop (p - 1) = tP :: kt.drop p := by
      rw [List.drop_eq_getElem_cons hlt, show p - 1 + 1 = p by omega, htP,
        List.getD_eq_getElem kt 0 hlt]
    rw [hRS, ← List.map_drop, h2, List.map_cons, List.map_drop]
  have hchain : ∀ (inner n : ℕ),
      readCellsAt (simOut cfg E header ts).cells
        (sizeCells header + ((p - 1) * BytesPerPeriod cfg + inner)) n =
      readCellsAt (periodRecord cfg E tP ++ (RS.drop p).flatten) inner n := by
    intro inner n
    rw [show (simOut cfg E header ts).cells = header ++ RS.flatten from
      hcells]
    rw [readCellsAt_append]
    rw [show RS.flatten = RS.flatten ++ [] from (List.append_nil _).symm]
    rw [readCellsAt_flatten_blocks (BytesPerPeriod cfg) RS [] (p - 1) inner
      n hsizes (by omega)]
    rw [hdrop, List.flatten_cons, List.append_nil]
  obtain ⟨rsub, rnode, rlink⟩ := readCellsAt_record cfg E tP
    ((RS.drop p).flatten) (hs tP) (hn tP) (hl tP)
  refine ⟨?_, ?_, ?_⟩
  · rw [show subBytePos cfg (sizeCells header) p ks =
      sizeCells header + ((p - 1) * BytesPerPeriod cfg +
        (8 + ks * (NsubcatchResults cfg * 4))) by unfold subBytePos; ring]
    rw [hchain]
    exact rsub ks hks
  · rw [show nodeBytePos cfg (sizeCells header) p kn =
      sizeCells header + ((p - 1) * BytesPerPeriod cfg +
        (8 + NumSubcatch cfg * (NsubcatchResults cfg * 4) +
          kn * (NnodeResults cfg * 4))) by unfold nodeBytePos; ring]
    rw [hchain]
    exact rnode kn hkn
  · rw [show linkBytePos cfg (sizeCells header) p kl =
      sizeCells header + ((p - 1) * BytesPerPeriod cfg +
        (8 + NumSubcatch cfg * (NsubcatchResults cfg * 4) +
          NumNodes cfg * (NnodeResults cfg * 4) +
          kl * (NlinkResults cfg * 4))) by unfold linkBytePos; ring]
    rw [hchain]
    exact rlink kl hkl

/-- A one-subcatchment, one-node, one-link, no-pollutant reporting setup. -/
def outCfg1 : OutCfg :=
  { subFlags := [true], nodeFlags := [true], linkFlags := [true],
    numPolluts := 0, ReportStart := 0 }

/-- Concrete result getters whose vectors have the configured lengths. -/
def outEnv1 : OutEnv :=
  { getDateTime := fun t => t,
    subR := fun t _ => List.replicate 8 t,
    nodeR := fun t _ => List.replicate 6 t,
    linkR := fun t _ => List.replicate 5 t,
    sysR := fun t => List.replicate 15 t }

theorem output_period_roundtrip_witness :
    ((1:ℕ) ≤ 2 ∧ 2 ≤ (keptTimes outCfg1 outEnv1 [1, 2]).length ∧
      0 < NumSubcatch outCfg1 ∧ 0 < NumNodes outCfg1 ∧
      0 < NumLinks outCfg1) ∧
    (readCellsAt (simOut outCfg1 outEnv1 [] [1, 2]).cells
        (subBytePos outCfg1 (sizeCells []) 2 0) (NsubcatchResults outCfg1) =
      some ((outEnv1.subR ((keptTimes outCfg1 outEnv1 [1, 2]).getD (2 - 1) 0)
        ((rptIdx outCfg1.subFlags).getD 0 0)).map Cell.r4) ∧
    readCellsAt (simOut outCfg1 outEnv1 [] [1, 2]).cells
        (nodeBytePos outCfg1 (sizeCells []) 2 0) (NnodeResults outCfg1) =
      some ((outEnv1.nodeR ((keptTimes outCfg1 outEnv1 [1, 2]).getD (2 - 1) 0)
        ((rptIdx outCfg1.nodeFlags).getD 0 0)).map Cell.r4) ∧
    readCellsAt (simOut outCfg1 outEnv1 [] [1, 2]).cells
        (linkBytePos outCfg1 (sizeCells []) 2 0) (NlinkResults outCfg1) =
      some ((outEnv1.linkR ((keptTimes outCfg1 outEnv1 [1, 2]).getD (2 - 1) 0)
        ((rptIdx outCfg1.linkFlags).getD 0 0)).map Cell.r4)) :=
  ⟨⟨by norm_num,
    by norm_num [keptTimes, outEnv1, outCfg1],
    by decide, by decide, by decide⟩,
   output_period_roundtrip outCfg1 outEnv1 [] [1, 2] 2 0 0 0
    (fun _ _ => rfl) (fun _ _ => rfl) (fun _ _ => rfl) (fun _ => rfl)
    (by norm_num)
    (by norm_num [keptTimes, outEnv1, outCfg1])
    (by decide) (by decide) (by decide)⟩

/-- C10: `output_saveResults` is a no-op before the report start date; for
every other call exactly one fixed-layout record of `BytesPerPeriod` bytes
is appended and `Nperiods` increases by one, so after a whole run the stream
holds the header followed by one record per reporting time at or after
`ReportStart`, with `Nperiods` counting exactly those times. -/
theorem output_saveResults_gating (cfg : OutCfg) (E : OutEnv)
    (hs : ∀ t j, (E.subR t j).length = NsubcatchResults cfg)
    (hn : ∀ t j, (E.nodeR t j).length = NnodeResults cfg)
    (hl : ∀ t j, (E.linkR t j).length = NlinkResults cfg)
    (hy : ∀ t, (E.sysR t).length = MAX_SYS_RESULTS) :
    (∀ (f : OutFile) (t : ℚ), E.getDateTime t < cfg.ReportStart →
      output_saveResults cfg E f t = f) ∧
    (∀ (f : OutFile) (t : ℚ), ¬ E.getDateTime t < cfg.ReportStart →
      (output_saveResults cfg E f t).cells =
        f.cells ++ periodRecord cfg E t ∧
      sizeCells (periodRecord cfg E t) = BytesPerPeriod cfg ∧
      (output_saveResults cfg E f t).Nper = f.Nper + 1) ∧
    (∀ (header : List Cell) (ts : List ℚ),
      (simOut cfg E header ts).cells =
        header ++ ((keptTimes cfg E ts).map (periodRecord cfg E)).flatten ∧
      (simOut cfg E header ts).Nper = (keptTimes cfg E ts).length) := by
  refine ⟨?_, ?_, ?_⟩
  · intro f t h
    simp [output_saveResults, if_pos h]
  · intro f t h
    exact ⟨by simp [output_saveResults, if_neg h],
      sizeCells_periodRecord cfg E t (hs t) (hn t) (hl t) (hy t),
      by simp [output_saveResults, if_neg h]⟩
  · intro header ts
    refine ⟨(saveResults_fold cfg E ts _).1, ?_⟩
    have := (saveResults_fold cfg E ts { cells := header, Nper := 0 }).2
    simpa [simOut] using this

theorem output_saveResults_gating_witness :
    ((outEnv1.getDateTime (-1) < outCfg1.ReportStart) ∧
      ¬ (outEnv1.getDateTime 1 < outCfg1.ReportStart)) ∧
    output_saveResults outCfg1 outEnv1 { cells := [], Nper := 0 } (-1) =
      { cells := [], Nper := 0 } ∧
    ((output_saveResults outCfg1 outEnv1 { cells := [], Nper := 0 } 1).cells =
      [] ++ periodRecord outCfg1 outEnv1 1 ∧
     sizeCells (periodRecord outCfg1 outEnv1 1) = BytesPerPeriod outCfg1 ∧
     (output_saveResults outCfg1 outEnv1
        { cells := [], Nper := 0 } 1).Nper = 0 + 1) :=
  ⟨⟨by norm_num [outEnv1, outCfg1], by norm_num [outEnv1, outCfg1]⟩,
   (output_saveResults_gating outCfg1 outEnv1 (fun _ _ => rfl)
      (fun _ _ => rfl) (fun _ _ => rfl) (fun _ => rfl)).1
     { cells := [], Nper := 0 } (-1) (by norm_num [outEnv1, outCfg1]),
   (output_saveResults_gating outCfg1 outEnv1 (fun _ _ => rfl)
      (fun _ _ => rfl) (fun _ _ => rfl) (fun _ => rfl)).2.1
     { cells := [], Nper := 0 } 1 (by norm_num [outEnv1, outCfg1])⟩

end SWMM
